import Mathlib

/-!
Shallow embedding of `code/lib/preview-api/src/modules/store/StoryStore.ts`.

The store orchestrates lazy loading and memoized preparation of CSF files
and stories.  JavaScript objects used as string-keyed maps are embedded as
association lists (`List (key × value)`) that keep insertion order, which is
the iteration order of `Object.entries`.  Object identity (the notion the
memoization caches key on, and the notion behind claims about "the same
instance") is embedded as a natural-number identity tag.  Asynchrony
collapses: the store runs on a single logical thread and every `await`
either produces a value or rejects, so an async method becomes a function
returning `Except StoreError α` together with the updated store state.

External collaborators that live in sibling modules of the same repository
(StoryIndexStore, ArgsStore, HooksContext, and the pure csf transforms
`processCSFFile` / `prepareStory`) are not under `src/`; they are modelled
from the spec where noted, as uninterpreted pure functions or as the minimal
state the spec ascribes to them.
-/

set_option autoImplicit false

deriving instance DecidableEq for Except

namespace StoryStore

abbrev StoryId := String
abbrev Path := String

/-- Identity tag of an annotations object (story-, component- or project-level). -/
abbrev Ann := Nat

/-- Identity tag of a loaded module's exports object. -/
abbrev ModuleTag := Nat

/-- Kind of an index entry (`entry.type` in the source). -/
inductive EntryType where
  | story
  | docs
  deriving DecidableEq

/-- An entry of the story index (the fields `StoryStore` reads). -/
structure IndexEntry where
  title : String
  importPath : Path
  type : EntryType
  deriving DecidableEq

/-- Modelled from the spec: a Structured File Record (`CSFFile`), produced by the
external pure transform `processCSFFile`: component-level annotations plus a
mapping story identifier → story-level annotations. -/
structure CSFFile where
  meta : Ann
  stories : List (StoryId × Ann)
  deriving DecidableEq

/-- A field value of a prepared story, as seen by `Object.entries` in `extract`:
a callable, an array, or any other value (plain or an args object). -/
inductive Value where
  | fn (ident : Nat)
  | arr (elems : List String)
  | prim (v : String)
  | argsObj (args : List (String × String))
  deriving DecidableEq

abbrev Args := List (String × String)

/-- Modelled from the spec: a Resolved Story (`PreparedStory`), produced by the
external pure transform `prepareStory`.  `fields` is the `Object.entries` view
of the object, which `extract` iterates; `id`, `docsOnly` (truthiness of
`parameters.docsOnly`) and `initialArgs` are the projections the store reads. -/
structure PreparedStory where
  id : StoryId
  docsOnly : Bool
  initialArgs : Args
  fields : List (String × Value)
  deriving DecidableEq

/-- A prepared-story instance: the value together with its object identity.
The memoized `prepareStoryWithCache` returns the same instance (same `ident`)
on a cache hit. -/
structure StoryObj where
  ident : Nat
  val : PreparedStory
  deriving DecidableEq

/-- Modelled from the spec: a Hook Handle (`HooksContext`), one per story
identifier, exposing a cleanup operation; `cleaned` records that cleanup was
invoked, `ident` is the handle's object identity. -/
structure Hook where
  ident : Nat
  cleaned : Bool
  deriving DecidableEq

/-- Invoking `clean()` on a hook handle mutates it in place: same object
identity, cleanup performed. -/
def Hook.clean (h : Hook) : Hook := ⟨h.ident, true⟩

/-- The errors `StoryStore` methods can signal. -/
inductive StoreError where
  | entryNotFound (id : StoryId)
  | missingStoryFromCsfFile (id : StoryId)
  | calledExtractOnStore
  | loaderFailure (err : Nat)
  | cannotCallFromId
  | undefinedCSFFile
  deriving DecidableEq

/-- The module loader: backing-module path → loaded module or a loader failure. -/
abbrev ImportFn := Path → Except Nat ModuleTag

/-- State of a `StoryStore` instance. -/
structure Store where
  entries : List (StoryId × IndexEntry)
  importFn : ImportFn
  projectAnnotations : Ann
  /-- Modelled from the spec: the external pure transform processing a loaded
  backing module (module, import path, title) into a Structured File Record. -/
  processCSFFile : ModuleTag → Path → String → CSFFile
  /-- Modelled from the spec: the external pure transform resolving a story from
  (story annotations, component annotations, project annotations). -/
  prepareStory : Ann → Ann → Ann → PreparedStory
  argsStore : List (StoryId × Args)
  globalsStore : Nat
  hooks : List (StoryId × Hook)
  cachedCSFFiles : Option (List (Path × CSFFile))
  processCache : List ((ModuleTag × Path × String) × CSFFile)
  prepareCache : List ((Ann × Ann × Ann) × StoryObj)
  nextIdent : Nat

def CSF_CACHE_SIZE : Nat := 1000
def STORY_CACHE_SIZE : Nat := 10000

/-- Association-list lookup, the embedding of indexing a JS object by a key. -/
def alookup {κ α : Type} [DecidableEq κ] : List (κ × α) → κ → Option α
  | [], _ => none
  | (k, v) :: rest, k0 => if k = k0 then some v else alookup rest k0

/-- Fetch from a memoizerific LRU cache: on a hit, return the cached value and
the cache with that entry moved to the most-recent position. -/
def lruFetch {κ α : Type} [DecidableEq κ] (cache : List (κ × α)) (k : κ) :
    Option (α × List (κ × α)) :=
  match alookup cache k with
  | none => none
  | some v => some (v, (k, v) :: cache.filter (fun p => decide (p.1 ≠ k)))

/-- Insert into an LRU cache bounded by `limit`, evicting beyond capacity. -/
def lruInsert {κ α : Type} [DecidableEq κ] (cache : List (κ × α)) (k : κ) (v : α)
    (limit : Nat) : List (κ × α) :=
  ((k, v) :: cache).take limit

/-- The memoized `processCSFFileWithCache` wrapper built in the constructor. -/
def processCSFFileWithCache (s : Store) (m : ModuleTag) (p : Path) (t : String) :
    CSFFile × Store :=
  match lruFetch s.processCache (m, p, t) with
  | some (f, cache) => (f, { s with processCache := cache })
  | none =>
    let f := s.processCSFFile m p t
    (f, { s with processCache := lruInsert s.processCache (m, p, t) f CSF_CACHE_SIZE })

/-- The memoized `prepareStoryWithCache` wrapper built in the constructor.  On a
miss it runs the pure transform and wraps the result in a fresh instance. -/
def prepareStoryWithCache (s : Store) (a c p : Ann) : StoryObj × Store :=
  match lruFetch s.prepareCache (a, c, p) with
  | some (o, cache) => (o, { s with prepareCache := cache })
  | none =>
    let o : StoryObj := ⟨s.nextIdent, s.prepareStory a c p⟩
    (o, { s with
            prepareCache := lruInsert s.prepareCache (a, c, p) o STORY_CACHE_SIZE
            nextIdent := s.nextIdent + 1 })

/-- Modelled from the spec: `StoryIndexStore.storyIdToEntry`, failing with
EntryNotFound when the identifier is absent from the index. -/
def storyIdToEntry (s : Store) (storyId : StoryId) : Except StoreError IndexEntry :=
  match alookup s.entries storyId with
  | none => .error (.entryNotFound storyId)
  | some e => .ok e

/-- Modelled from the spec: `ArgsStore.setInitial` seeds the argument store with
the resolved story's initial defaults if no value exists yet for its id. -/
def argsSetInitial (args : List (StoryId × Args)) (story : PreparedStory) :
    List (StoryId × Args) :=
  match alookup args story.id with
  | some _ => args
  | none => (story.id, story.initialArgs) :: args

/-- The assignment `this.hooks[story.id] = this.hooks[story.id] || new HooksContext()`:
keep an existing handle, otherwise create a fresh one.  Returns the registry and
the next free identity. -/
def hooksEnsure (hooks : List (StoryId × Hook)) (storyId : StoryId) (fresh : Nat) :
    List (StoryId × Hook) × Nat :=
  match alookup hooks storyId with
  | some _ => (hooks, fresh)
  | none => ((storyId, ⟨fresh, false⟩) :: hooks, fresh + 1)

/-- `StoryStore.storyFromCSFFile`: look up the story annotations (throwing
MissingStoryFromCsfFileError when absent), run the memoized prepare, seed the
args store, ensure a hook handle exists, and return the prepared story. -/
def storyFromCSFFile (s : Store) (storyId : StoryId) (csfFile : CSFFile) :
    Except StoreError StoryObj × Store :=
  match alookup csfFile.stories storyId with
  | none => (.error (.missingStoryFromCsfFile storyId), s)
  | some storyAnnotations =>
    let r := prepareStoryWithCache s storyAnnotations csfFile.meta s.projectAnnotations
    let story := r.1
    let s1 := r.2
    let s2 := { s1 with argsStore := argsSetInitial s1.argsStore story.val }
    let hr := hooksEnsure s2.hooks story.val.id s2.nextIdent
    (.ok story, { s2 with hooks := hr.1, nextIdent := hr.2 })

/-- `StoryStore.cleanupStory`: invoke `clean()` on the story's hook handle; the
registry keeps the (now cleaned) handle.  When no handle exists the JS code
crashes on `undefined.clean()`, embedded as `none`. -/
def cleanupStory (s : Store) (story : PreparedStory) : Option Store :=
  match alookup s.hooks story.id with
  | none => none
  | some _ =>
    some { s with
             hooks := s.hooks.map fun p =>
               if p.1 = story.id then (p.1, p.2.clean) else p }

/-- `StoryStore.loadCSFFileByStoryId`: resolve the entry, invoke the module
loader on its import path, and process the module with the memoized transform. -/
def loadCSFFileByStoryId (s : Store) (storyId : StoryId) :
    Except StoreError CSFFile × Store :=
  match storyIdToEntry s storyId with
  | .error e => (.error e, s)
  | .ok entry =>
    match s.importFn entry.importPath with
    | .error n => (.error (.loaderFailure n), s)
    | .ok moduleExports =>
      let r := processCSFFileWithCache s moduleExports entry.importPath entry.title
      (.ok r.1, r.2)

/-- One step of building the `importPaths` object in `loadAllCSFFiles`:
`importPaths[importPath] = storyId` keeps the key position of an existing key
and appends a new key. -/
def recordImportPath (acc : List (Path × StoryId)) (p : Path) (storyId : StoryId) :
    List (Path × StoryId) :=
  if acc.any (fun q => decide (q.1 = p)) then
    acc.map (fun q => if q.1 = p then (p, storyId) else q)
  else
    acc ++ [(p, storyId)]

/-- The deduplicated `importPaths` table of `loadAllCSFFiles`: one entry per
distinct import path, keyed in first-occurrence order, valued by the last
story identifier written for that path. -/
def importPathsOf (entries : List (StoryId × IndexEntry)) : List (Path × StoryId) :=
  entries.foldl (fun acc e => recordImportPath acc e.2.importPath e.1) []

/-- The `Promise.all` fan-out of `loadAllCSFFiles`, sequentialized: load each
representative story's file in order, failing the aggregate on the first
failure (no partial mapping is produced). -/
def loadCSFList (s : Store) :
    List (Path × StoryId) → Except StoreError (List (Path × CSFFile)) × Store
  | [] => (.ok [], s)
  | (p, storyId) :: rest =>
    match loadCSFFileByStoryId s storyId with
    | (.error e, s1) => (.error e, s1)
    | (.ok f, s1) =>
      match loadCSFList s1 rest with
      | (.error e, s2) => (.error e, s2)
      | (.ok fs, s2) => (.ok ((p, f) :: fs), s2)

/-- `StoryStore.loadAllCSFFiles`: dedupe import paths, then load them all. -/
def loadAllCSFFiles (s : Store) : Except StoreError (List (Path × CSFFile)) × Store :=
  loadCSFList s (importPathsOf s.entries)

/-- `StoryStore.cacheAllCSFFiles`: on success assign the materialized map; a
failure leaves `cachedCSFFiles` unassigned. -/
def cacheAllCSFFiles (s : Store) : Except StoreError Unit × Store :=
  match loadAllCSFFiles s with
  | (.error e, s1) => (.error e, s1)
  | (.ok m, s1) => (.ok (), { s1 with cachedCSFFiles := some m })

/-- The field updates at the top of `onStoriesChanged`. -/
def applySourceUpdate (s : Store) (importFn : Option ImportFn)
    (storyIndex : Option (List (StoryId × IndexEntry))) : Store :=
  { s with importFn := importFn.getD s.importFn, entries := storyIndex.getD s.entries }

/-- `StoryStore.onStoriesChanged`: apply the updates, then, if a materialized
map exists, eagerly re-run `cacheAllCSFFiles` (whose failure the `await`
propagates to the caller). -/
def onStoriesChanged (s : Store) (importFn : Option ImportFn)
    (storyIndex : Option (List (StoryId × IndexEntry))) : Except StoreError Unit × Store :=
  let s1 := applySourceUpdate s importFn storyIndex
  match s1.cachedCSFFiles with
  | none => (.ok (), s1)
  | some _ => cacheAllCSFFiles s1

/-- Sorting used for array-valued fields in `extract` (`value.slice().sort()`). -/
def sortStrings (l : List String) : List String :=
  List.insertionSort (fun a b => a ≤ b) l

/-- The `Object.assign(storyAcc, \x7b [key]: value \x7d)` step: overwrite an
existing key in place, append a new key. -/
def assignField (acc : List (String × Value)) (k : String) (v : Value) :
    List (String × Value) :=
  if acc.any (fun p => decide (p.1 = k)) then
    acc.map (fun p => if p.1 = k then (k, v) else p)
  else
    acc ++ [(k, v)]

/-- One step of the inner reduce of `extract`: drop the `moduleExport` key and
callables, sort array values, keep everything else. -/
def extractField (acc : List (String × Value)) (kv : String × Value) :
    List (String × Value) :=
  if kv.1 = "moduleExport" then acc
  else
    match kv.2 with
    | .fn _ => acc
    | .arr l => assignField acc kv.1 (.arr (sortStrings l))
    | v => assignField acc kv.1 v

/-- The record `extract` produces for one story: the inner reduce over
`Object.entries(story)` with initial accumulator `\x7b args: story.initialArgs \x7d`. -/
def extractRecord (story : PreparedStory) : List (String × Value) :=
  story.fields.foldl extractField [("args", .argsObj story.initialArgs)]

/-- The outer reduce of `extract` over the index entries: skip docs entries,
resolve each story from its cached file record (an uncached path would crash on
an undefined file), optionally skip docs-only stories. -/
def extractEntries (s : Store) (includeDocsOnly : Bool) (cached : List (Path × CSFFile)) :
    List (StoryId × IndexEntry) →
      Except StoreError (List (StoryId × List (String × Value))) × Store
  | [] => (.ok [], s)
  | (storyId, entry) :: rest =>
    if entry.type = EntryType.docs then extractEntries s includeDocsOnly cached rest
    else
      match alookup cached entry.importPath with
      | none => (.error .undefinedCSFFile, s)
      | some csfFile =>
        match storyFromCSFFile s storyId csfFile with
        | (.error e, s1) => (.error e, s1)
        | (.ok story, s1) =>
          if includeDocsOnly = false ∧ story.val.docsOnly = true then
            extractEntries s1 includeDocsOnly cached rest
          else
            match extractEntries s1 includeDocsOnly cached rest with
            | (.error e, s2) => (.error e, s2)
            | (.ok recs, s2) => (.ok ((storyId, extractRecord story.val) :: recs), s2)

/-- `StoryStore.extract`: throw CalledExtractOnStoreError when no materialized
map exists, otherwise build the snapshot from the captured map. -/
def extract (s : Store) (includeDocsOnly : Bool) :
    Except StoreError (List (StoryId × List (String × Value))) × Store :=
  match s.cachedCSFFiles with
  | none => (.error .calledExtractOnStore, s)
  | some cached => extractEntries s includeDocsOnly cached s.entries

/-- `StoryStore.fromId`: require the materialized map (uncategorized usage error
otherwise), swallow an index-lookup failure into `null`, then resolve the story
from the cached file record. -/
def fromId (s : Store) (storyId : StoryId) : Except StoreError (Option StoryObj) × Store :=
  match s.cachedCSFFiles with
  | none => (.error .cannotCallFromId, s)
  | some cached =>
    match storyIdToEntry s storyId with
    | .error _ => (.ok none, s)
    | .ok entry =>
      match alookup cached entry.importPath with
      | none => (.error .undefinedCSFFile, s)
      | some csfFile =>
        match storyFromCSFFile s storyId csfFile with
        | (.error e, s1) => (.error e, s1)
        | (.ok story, s1) => (.ok (some story), s1)

/-- Pure description of whether `loadCSFFileByStoryId` fails, and how: it only
depends on the index entries and the module loader, not on any cache state. -/
def loadErrorOf (s : Store) (storyId : StoryId) : Option StoreError :=
  match alookup s.entries storyId with
  | none => some (.entryNotFound storyId)
  | some e =>
    match s.importFn e.importPath with
    | .error n => some (.loaderFailure n)
    | .ok _ => none

/-- Pure description of the file record `loadCSFFileByStoryId` produces on
success (with a default value on the failure branches). -/
def loadResultD (s : Store) (storyId : StoryId) : CSFFile :=
  match alookup s.entries storyId with
  | none => ⟨0, []⟩
  | some e =>
    match s.importFn e.importPath with
    | .error _ => ⟨0, []⟩
    | .ok m => s.processCSFFile m e.importPath e.title

/-- Consistency of the process-CSF memoization cache: every cached record is the
transform's output on its key.  This holds of every reachable store because
only the memoized wrapper writes the cache. -/
def ProcessCacheOK (s : Store) : Prop :=
  ∀ k f, (k, f) ∈ s.processCache → f = s.processCSFFile k.1 k.2.1 k.2.2

/-- Consistency of the prepare-story memoization cache: every cached instance
carries the transform's output on its key. -/
def PrepareCacheOK (s : Store) : Prop :=
  ∀ k o, (k, o) ∈ s.prepareCache → o.val = s.prepareStory k.1 k.2.1 k.2.2

/-- The store fields preserved by the loading and preparation operations. -/
def Frame (s s1 : Store) : Prop :=
  s1.entries = s.entries ∧ s1.importFn = s.importFn ∧
    s1.projectAnnotations = s.projectAnnotations ∧
    s1.processCSFFile = s.processCSFFile ∧ s1.prepareStory = s.prepareStory ∧
    s1.cachedCSFFiles = s.cachedCSFFiles

/-- The store fields preserved by the loading operations: everything except the
process-CSF memoization cache. -/
def LoadFrame (s s1 : Store) : Prop :=
  Frame s s1 ∧ s1.argsStore = s.argsStore ∧ s1.hooks = s.hooks ∧
    s1.prepareCache = s.prepareCache ∧ s1.nextIdent = s.nextIdent ∧
    s1.globalsStore = s.globalsStore

/-- All store fields other than the hook registry, packaged so frame conditions
can say that `cleanupStory` touches nothing but `hooks`. -/
def CleanupFrame (s s2 : Store) : Prop :=
  s2.entries = s.entries ∧ s2.importFn = s.importFn ∧
    s2.projectAnnotations = s.projectAnnotations ∧
    s2.processCSFFile = s.processCSFFile ∧ s2.prepareStory = s.prepareStory ∧
    s2.argsStore = s.argsStore ∧ s2.globalsStore = s.globalsStore ∧
    s2.cachedCSFFiles = s.cachedCSFFiles ∧ s2.processCache = s.processCache ∧
    s2.prepareCache = s.prepareCache ∧ s2.nextIdent = s.nextIdent

/-- Concrete prepared story used to exercise the theorems on closed inputs. -/
def demoPrepared : PreparedStory :=
  { id := "s1", docsOnly := false, initialArgs := [("label", "hi")],
    fields := [("id", .prim "s1"), ("decorators", .arr ["deco"]),
               ("render", .fn 5), ("moduleExport", .prim "mod"),
               ("name", .prim "Primary")] }

def demoPrepare : Ann → Ann → Ann → PreparedStory := fun _ _ _ => demoPrepared

def demoCSF : CSFFile := { meta := 10, stories := [("s1", 20)] }

def demoEntry : IndexEntry :=
  { title := "Button", importPath := "Button.stories.ts", type := .story }

def demoImportFn : ImportFn := fun p => if p = "bad.ts" then .error 7 else .ok 1

/-- A freshly constructed store over a one-entry index. -/
def demoStore : Store :=
  { entries := [("s1", demoEntry)], importFn := demoImportFn, projectAnnotations := 0,
    processCSFFile := fun _ _ _ => demoCSF, prepareStory := demoPrepare,
    argsStore := [], globalsStore := 0, hooks := [], cachedCSFFiles := none,
    processCache := [], prepareCache := [], nextIdent := 100 }

/-- The record `extract` produces for the demo story. -/
def demoRecord : List (String × Value) :=
  [("args", .argsObj [("label", "hi")]), ("id", .prim "s1"),
   ("decorators", .arr ["deco"]), ("name", .prim "Primary")]

/-- The demo store after materialization. -/
def matStore : Store :=
  { demoStore with cachedCSFFiles := some [("Button.stories.ts", demoCSF)] }

/-- A materialized store whose single entry now points at a failing module. -/
def failStore : Store :=
  { demoStore with
      entries := [("s1", { demoEntry with importPath := "bad.ts" })],
      cachedCSFFiles := some [("Button.stories.ts", demoCSF)] }

/-- The demo store with a pre-existing hook handle for the demo story. -/
def hookStore : Store :=
  { demoStore with hooks := [("s1", ⟨50, false⟩)] }

/-- The demo store with a pre-existing argument value for the demo story. -/
def argStore : Store :=
  { demoStore with argsStore := [("s1", [("label", "old")])] }

theorem alookup_mem {κ α : Type} [DecidableEq κ] {l : List (κ × α)} {k : κ} {v : α}
    (h : alookup l k = some v) : (k, v) ∈ l := by
  induction l with
  | nil => simp [alookup] at h
  | cons q rest ih =>
    obtain ⟨k1, v1⟩ := q
    by_cases hk : k1 = k
    · subst hk
      simp [alookup] at h
      simp [h]
    · simp [alookup, hk] at h
      exact List.mem_cons_of_mem _ (ih h)

theorem alookup_eq_none_iff {κ α : Type} [DecidableEq κ] {l : List (κ × α)} {k : κ} :
    alookup l k = none ↔ k ∉ l.map Prod.fst := by
  induction l with
  | nil => simp [alookup]
  | cons q rest ih =>
    obtain ⟨k1, v1⟩ := q
    simp only [alookup, List.map_cons, List.mem_cons]
    by_cases hk : k1 = k
    · subst hk; simp
    · rw [if_neg hk, ih]
      have hk2 : ¬ k = k1 := fun h => hk h.symm
      constructor
      · intro h hor
        rcases hor with h1 | h2
        · exact hk2 h1
        · exact h h2
      · intro h hm
        exact h (Or.inr hm)

theorem alookup_of_mem_nodup {κ α : Type} [DecidableEq κ] {l : List (κ × α)} {k : κ} {v : α}
    (hmem : (k, v) ∈ l) (hnd : (l.map Prod.fst).Nodup) : alookup l k = some v := by
  induction l with
  | nil => simp at hmem
  | cons q rest ih =>
    obtain ⟨k1, v1⟩ := q
    simp only [List.map_cons, List.nodup_cons] at hnd
    rcases List.mem_cons.mp hmem with h | h
    · injection h with h1 h2
      subst h1; subst h2
      simp [alookup]
    · have hk : k1 ≠ k := by
        intro hk; subst hk
        exact hnd.1 (List.mem_map.mpr ⟨(k1, v), h, rfl⟩)
      simp only [alookup, if_neg hk]
      exact ih h hnd.2

theorem alookup_map_update {κ α : Type} [DecidableEq κ] (l : List (κ × α)) (key : κ)
    (g : α → α) (k : κ) :
    alookup (l.map fun p => if p.1 = key then (p.1, g p.2) else p) k =
      if k = key then (alookup l k).map g else alookup l k := by
  induction l with
  | nil => cases hkk : decide (k = key) <;> simp_all [alookup]
  | cons q rest ih =>
    obtain ⟨k1, v1⟩ := q
    simp only [List.map_cons]
    by_cases hk1 : k1 = key
    · subst hk1
      rw [show (if (k1, v1).1 = k1 then ((k1, v1).1, g (k1, v1).2) else (k1, v1)) =
            (k1, g v1) from if_pos rfl]
      by_cases hkk : k1 = k
      · subst hkk
        simp [alookup, ih]
      · have hk2 : ¬ k = k1 := fun h => hkk h.symm
        simp only [alookup, if_neg hkk, ih]
    · rw [show (if (k1, v1).1 = key then ((k1, v1).1, g (k1, v1).2) else (k1, v1)) =
            (k1, v1) from if_neg hk1]
      by_cases hkk : k1 = k
      · subst hkk
        have hk2 : ¬ k1 = key := hk1
        simp [alookup, hk2]
      · simp only [alookup, if_neg hkk, ih]

theorem map_fst_map_update {κ α : Type} [DecidableEq κ] (l : List (κ × α)) (key : κ)
    (g : α → α) :
    (l.map fun p => if p.1 = key then (p.1, g p.2) else p).map Prod.fst = l.map Prod.fst := by
  rw [List.map_map]
  apply List.map_congr_left
  intro p _
  by_cases h : p.1 = key <;> simp [h]

theorem frame_rfl (s : Store) : Frame s s := ⟨rfl, rfl, rfl, rfl, rfl, rfl⟩

theorem frame_trans {s1 s2 s3 : Store} (h1 : Frame s1 s2) (h2 : Frame s2 s3) :
    Frame s1 s3 := by
  obtain ⟨a1, b1, c1, d1, e1, f1⟩ := h1
  obtain ⟨a2, b2, c2, d2, e2, f2⟩ := h2
  exact ⟨a2.trans a1, b2.trans b1, c2.trans c1, d2.trans d1, e2.trans e1, f2.trans f1⟩

theorem prepareWC_frame (s : Store) (a c p : Ann) :
    Frame s (prepareStoryWithCache s a c p).2 ∧
      (prepareStoryWithCache s a c p).2.argsStore = s.argsStore ∧
      (prepareStoryWithCache s a c p).2.hooks = s.hooks ∧
      (prepareStoryWithCache s a c p).2.processCache = s.processCache ∧
      (prepareStoryWithCache s a c p).2.globalsStore = s.globalsStore := by
  cases h : alookup s.prepareCache (a, c, p) with
  | none => simp [prepareStoryWithCache, lruFetch, h, Frame]
  | some o => simp [prepareStoryWithCache, lruFetch, h, Frame]

theorem prepareWC_val (s : Store) (a c p : Ann) (h : PrepareCacheOK s) :
    (prepareStoryWithCache s a c p).1.val = s.prepareStory a c p := by
  cases hf : alookup s.prepareCache (a, c, p) with
  | none => simp [prepareStoryWithCache, lruFetch, hf]
  | some o =>
    have := h _ o (alookup_mem hf)
    simp [prepareStoryWithCache, lruFetch, hf, this]

theorem prepareWC_lookup_after (s : Store) (a c p : Ann) :
    alookup (prepareStoryWithCache s a c p).2.prepareCache (a, c, p) =
      some (prepareStoryWithCache s a c p).1 := by
  cases hf : alookup s.prepareCache (a, c, p) with
  | some o => simp [prepareStoryWithCache, lruFetch, hf, alookup]
  | none =>
    simp only [prepareStoryWithCache, lruFetch, hf, lruInsert]
    rw [show STORY_CACHE_SIZE = 9999 + 1 from rfl, List.take_succ_cons]
    simp [alookup]

theorem prepareWC_cacheOK (s : Store) (a c p : Ann) (h : PrepareCacheOK s) :
    PrepareCacheOK (prepareStoryWithCache s a c p).2 := by
  intro k o hmem
  cases hf : alookup s.prepareCache (a, c, p) with
  | some o2 =>
    simp only [prepareStoryWithCache, lruFetch, hf] at hmem ⊢
    rcases List.mem_cons.mp hmem with h1 | h2
    · injection h1 with hk ho
      subst hk; subst ho
      exact h _ _ (alookup_mem hf)
    · exact h _ _ (List.mem_of_mem_filter h2)
  | none =>
    simp only [prepareStoryWithCache, lruFetch, hf, lruInsert] at hmem ⊢
    have hmem2 := List.take_subset _ _ hmem
    rcases List.mem_cons.mp hmem2 with h1 | h2
    · injection h1 with hk ho
      subst hk; subst ho
      rfl
    · exact h _ _ h2

theorem storyFromCSFFile_none (s : Store) (storyId : StoryId) (f : CSFFile)
    (ha : alookup f.stories storyId = none) :
    storyFromCSFFile s storyId f = (.error (.missingStoryFromCsfFile storyId), s) := by
  simp [storyFromCSFFile, ha]

theorem storyFromCSFFile_fst (s : Store) (storyId : StoryId) (f : CSFFile) (a : Ann)
    (ha : alookup f.stories storyId = some a) :
    (storyFromCSFFile s storyId f).1 =
      .ok (prepareStoryWithCache s a f.meta s.projectAnnotations).1 := by
  simp [storyFromCSFFile, ha]

theorem storyFromCSFFile_argsStore (s : Store) (storyId : StoryId) (f : CSFFile) (a : Ann)
    (ha : alookup f.stories storyId = some a) :
    (storyFromCSFFile s storyId f).2.argsStore =
      argsSetInitial s.argsStore (prepareStoryWithCache s a f.meta s.projectAnnotations).1.val := by
  simp only [storyFromCSFFile, ha]
  rw [(prepareWC_frame s a f.meta s.projectAnnotations).2.1]

theorem storyFromCSFFile_hooks (s : Store) (storyId : StoryId) (f : CSFFile) (a : Ann)
    (ha : alookup f.stories storyId = some a) :
    (storyFromCSFFile s storyId f).2.hooks =
      (hooksEnsure s.hooks (prepareStoryWithCache s a f.meta s.projectAnnotations).1.val.id
        (prepareStoryWithCache s a f.meta s.projectAnnotations).2.nextIdent).1 := by
  simp only [storyFromCSFFile, ha]
  rw [(prepareWC_frame s a f.meta s.projectAnnotations).2.2.1]

theorem storyFromCSFFile_prepareCache (s : Store) (storyId : StoryId) (f : CSFFile) (a : Ann)
    (ha : alookup f.stories storyId = some a) :
    (storyFromCSFFile s storyId f).2.prepareCache =
      (prepareStoryWithCache s a f.meta s.projectAnnotations).2.prepareCache := by
  simp [storyFromCSFFile, ha]

theorem storyFromCSFFile_frame (s : Store) (storyId : StoryId) (f : CSFFile) :
    Frame s (storyFromCSFFile s storyId f).2 ∧
      (storyFromCSFFile s storyId f).2.processCache = s.processCache ∧
      (storyFromCSFFile s storyId f).2.globalsStore = s.globalsStore := by
  cases ha : alookup f.stories storyId with
  | none => rw [storyFromCSFFile_none s storyId f ha]; exact ⟨frame_rfl s, rfl, rfl⟩
  | some a =>
    obtain ⟨hfr, hargs, hhooks, hproc, hglob⟩ := prepareWC_frame s a f.meta s.projectAnnotations
    obtain ⟨he, hi, hp, hc, hps, hcf⟩ := hfr
    simp only [storyFromCSFFile, ha]
    exact ⟨⟨he, hi, hp, hc, hps, hcf⟩, hproc, hglob⟩

theorem storyFromCSFFile_cacheOK (s : Store) (storyId : StoryId) (f : CSFFile)
    (h : PrepareCacheOK s) : PrepareCacheOK (storyFromCSFFile s storyId f).2 := by
  cases ha : alookup f.stories storyId with
  | none => rw [storyFromCSFFile_none s storyId f ha]; exact h
  | some a =>
    intro k o hmem
    rw [storyFromCSFFile_prepareCache s storyId f a ha] at hmem
    have hps : (storyFromCSFFile s storyId f).2.prepareStory = s.prepareStory :=
      (storyFromCSFFile_frame s storyId f).1.2.2.2.2.1
    rw [hps]
    have h2 := prepareWC_cacheOK s a f.meta s.projectAnnotations h _ _ hmem
    rw [(prepareWC_frame s a f.meta s.projectAnnotations).1.2.2.2.2.1] at h2
    exact h2

theorem hooksEnsure_isSome_after (hooks : List (StoryId × Hook)) (storyId : StoryId)
    (n : Nat) : (alookup (hooksEnsure hooks storyId n).1 storyId).isSome := by
  cases h : alookup hooks storyId with
  | some v => simp [hooksEnsure, h]
  | none => simp [hooksEnsure, h, alookup]

theorem hooksEnsure_of_isSome (hooks : List (StoryId × Hook)) (storyId : StoryId)
    (n : Nat) (h : (alookup hooks storyId).isSome) : hooksEnsure hooks storyId n = (hooks, n) := by
  cases hh : alookup hooks storyId with
  | none => rw [hh] at h; cases h
  | some v => simp [hooksEnsure, hh]

theorem storyFromCSFFile_hooks_of_present (s : Store) (storyId : StoryId) (f : CSFFile)
    (o : StoryObj) (h : (storyFromCSFFile s storyId f).1 = .ok o)
    (hpres : (alookup s.hooks o.val.id).isSome) :
    (storyFromCSFFile s storyId f).2.hooks = s.hooks := by
  cases ha : alookup f.stories storyId with
  | none =>
    rw [storyFromCSFFile_none s storyId f ha] at h
    exact absurd h (by simp)
  | some a =>
    have hfst := storyFromCSFFile_fst s storyId f a ha
    rw [hfst] at h
    injection h with ho
    rw [storyFromCSFFile_hooks s storyId f a ha, ho,
      hooksEnsure_of_isSome s.hooks o.val.id _ hpres]

theorem secondCall_spec (s : Store) (storyId : StoryId) (f : CSFFile) (o : StoryObj)
    (h : (storyFromCSFFile s storyId f).1 = .ok o) :
    (storyFromCSFFile (storyFromCSFFile s storyId f).2 storyId f).1 = .ok o ∧
      (storyFromCSFFile (storyFromCSFFile s storyId f).2 storyId f).2.hooks =
        (storyFromCSFFile s storyId f).2.hooks := by
  cases ha : alookup f.stories storyId with
  | none =>
    rw [storyFromCSFFile_none s storyId f ha] at h
    exact absurd h (by simp)
  | some a =>
    have hfst := storyFromCSFFile_fst s storyId f a ha
    rw [hfst] at h
    injection h with ho
    have hproj : (storyFromCSFFile s storyId f).2.projectAnnotations = s.projectAnnotations :=
      (storyFromCSFFile_frame s storyId f).1.2.2.1
    have hcache : alookup (storyFromCSFFile s storyId f).2.prepareCache
        (a, f.meta, s.projectAnnotations) = some o := by
      rw [storyFromCSFFile_prepareCache s storyId f a ha, ← ho]
      exact prepareWC_lookup_after s a f.meta s.projectAnnotations
    have hhit : prepareStoryWithCache (storyFromCSFFile s storyId f).2 a f.meta
        ((storyFromCSFFile s storyId f).2.projectAnnotations) =
        (o, { (storyFromCSFFile s storyId f).2 with
                prepareCache := ((a, f.meta, s.projectAnnotations), o) ::
                  (storyFromCSFFile s storyId f).2.prepareCache.filter
                    (fun p => decide (p.1 ≠ (a, f.meta, s.projectAnnotations))) }) := by
      rw [hproj]
      simp [prepareStoryWithCache, lruFetch, hcache]
    constructor
    · rw [storyFromCSFFile_fst _ storyId f a ha, hhit]
    · have hpres : (alookup (storyFromCSFFile s storyId f).2.hooks o.val.id).isSome := by
        rw [storyFromCSFFile_hooks s storyId f a ha, ho]
        exact hooksEnsure_isSome_after _ _ _
      have hok2 : (storyFromCSFFile (storyFromCSFFile s storyId f).2 storyId f).1 = .ok o := by
        rw [storyFromCSFFile_fst _ storyId f a ha, hhit]
      exact storyFromCSFFile_hooks_of_present _ storyId f o hok2 hpres

/-- Claim C4: for a fixed triple of input object identities whose cache entry has
not been evicted (in particular, across two consecutive calls, where no eviction
can intervene), two calls to `storyFromCSFFile` on the same store return the
identical prepared-story instance: the same object, not merely an equal value. -/
theorem claim_C4 (s : Store) (storyId : StoryId) (f : CSFFile) (o : StoryObj)
    (h : (storyFromCSFFile s storyId f).1 = .ok o) :
    (storyFromCSFFile (storyFromCSFFile s storyId f).2 storyId f).1 = .ok o :=
  (secondCall_spec s storyId f o h).1

/-- Claim C4 witness: on the concrete demo store, the first call returns the
instance tagged 100 and the second call returns that same instance. -/
theorem claim_C4_witness :
    (storyFromCSFFile (storyFromCSFFile demoStore "s1" demoCSF).2 "s1" demoCSF).1 =
      .ok ⟨100, demoPrepared⟩ :=
  claim_C4 demoStore "s1" demoCSF ⟨100, demoPrepared⟩ (by decide)

/-- Claim C5: for a story identifier present in the file record, after
`storyFromCSFFile` the argument store holds the resolved story's declared
initial argument defaults for that identifier if no prior value existed, and a
pre-existing value is left untouched.  (As in the source, the argument store is
keyed by the resolved story's own id, which for a well-formed CSF file equals
the requested identifier — hypothesis `hid`.) -/
theorem claim_C5 (s : Store) (storyId : StoryId) (f : CSFFile) (o : StoryObj)
    (hcall : (storyFromCSFFile s storyId f).1 = .ok o)
    (hid : o.val.id = storyId) :
    (alookup s.argsStore storyId = none →
        alookup (storyFromCSFFile s storyId f).2.argsStore storyId =
          some o.val.initialArgs) ∧
      (∀ v, alookup s.argsStore storyId = some v →
        alookup (storyFromCSFFile s storyId f).2.argsStore storyId = some v) := by
  cases ha : alookup f.stories storyId with
  | none =>
    rw [storyFromCSFFile_none s storyId f ha] at hcall
    exact absurd hcall (by simp)
  | some a =>
    have hfst := storyFromCSFFile_fst s storyId f a ha
    rw [hfst] at hcall
    injection hcall with ho
    rw [storyFromCSFFile_argsStore s storyId f a ha, ho]
    constructor
    · intro hnone
      simp only [argsSetInitial, hid, hnone]
      simp [alookup]
    · intro v hv
      simp only [argsSetInitial, hid, hv]

/-- Claim C5 witness: on the demo store the args store is seeded with the demo
story's initial defaults when empty, and an existing value survives. -/
theorem claim_C5_witness :
    alookup (storyFromCSFFile demoStore "s1" demoCSF).2.argsStore "s1" =
        some demoPrepared.initialArgs ∧
      alookup (storyFromCSFFile argStore "s1" demoCSF).2.argsStore "s1" =
        some [("label", "old")] :=
  ⟨(claim_C5 demoStore "s1" demoCSF ⟨100, demoPrepared⟩ (by decide) rfl).1 (by decide),
   (claim_C5 argStore "s1" demoCSF ⟨100, demoPrepared⟩ (by decide) rfl).2
     [("label", "old")] (by decide)⟩

/-- Claim C6: the hook registry keeps at most one handle per story identifier
(key nodup is preserved by `storyFromCSFFile` and by `cleanupStory`), and a
repeated `storyFromCSFFile` call for the same identifier leaves the registry
completely unchanged, never replacing or duplicating an existing handle. -/
theorem claim_C6 (s : Store) (storyId : StoryId) (f : CSFFile) :
    ((s.hooks.map Prod.fst).Nodup →
        ((storyFromCSFFile s storyId f).2.hooks.map Prod.fst).Nodup) ∧
      (∀ story s2, (s.hooks.map Prod.fst).Nodup → cleanupStory s story = some s2 →
        (s2.hooks.map Prod.fst).Nodup) ∧
      (∀ o, (storyFromCSFFile s storyId f).1 = .ok o →
        (storyFromCSFFile (storyFromCSFFile s storyId f).2 storyId f).2.hooks =
          (storyFromCSFFile s storyId f).2.hooks) := by
  refine ⟨?_, ?_, fun o ho => (secondCall_spec s storyId f o ho).2⟩
  · intro hnd
    cases ha : alookup f.stories storyId with
    | none => rw [storyFromCSFFile_none s storyId f ha]; exact hnd
    | some a =>
      rw [storyFromCSFFile_hooks s storyId f a ha]
      cases hh : alookup s.hooks
          (prepareStoryWithCache s a f.meta s.projectAnnotations).1.val.id with
      | some v => simpa [hooksEnsure, hh] using hnd
      | none =>
        simp only [hooksEnsure, hh, List.map_cons]
        exact List.nodup_cons.mpr ⟨alookup_eq_none_iff.mp hh, hnd⟩
  · intro story s2 hnd hcl
    cases hh : alookup s.hooks story.id with
    | none => simp [cleanupStory, hh] at hcl
    | some v =>
      simp only [cleanupStory, hh, Option.some.injEq] at hcl
      rw [← hcl]
      show ((s.hooks.map fun p =>
        if p.1 = story.id then (p.1, p.2.clean) else p).map Prod.fst).Nodup
      rw [map_fst_map_update]
      exact hnd

/-- Claim C6 witness: on the demo store the registry keys stay nodup after a
resolve, a cleanup on a registered handle keeps them nodup, and a second
resolve leaves the registry unchanged. -/
theorem claim_C6_witness :
    ((storyFromCSFFile demoStore "s1" demoCSF).2.hooks.map Prod.fst).Nodup ∧
      ({ demoStore with hooks := [("s1", ⟨50, true⟩)] }.hooks.map Prod.fst).Nodup ∧
      (storyFromCSFFile (storyFromCSFFile demoStore "s1" demoCSF).2 "s1" demoCSF).2.hooks =
        (storyFromCSFFile demoStore "s1" demoCSF).2.hooks :=
  ⟨(claim_C6 demoStore "s1" demoCSF).1 (by decide),
   (claim_C6 hookStore "s1" demoCSF).2.1 demoPrepared
     { demoStore with hooks := [("s1", ⟨50, true⟩)] } (by decide) rfl,
   (claim_C6 demoStore "s1" demoCSF).2.2 ⟨100, demoPrepared⟩ (by decide)⟩

/-- Claim C9: with a materialized map present, `fromId` on an identifier absent
from the index returns null instead of propagating the EntryNotFound failure;
without a materialized map it throws the usage error before any index lookup. -/
theorem claim_C9 (s : Store) (storyId : StoryId) :
    (∀ cached, s.cachedCSFFiles = some cached → alookup s.entries storyId = none →
        fromId s storyId = (.ok none, s)) ∧
      (s.cachedCSFFiles = none → fromId s storyId = (.error .cannotCallFromId, s)) := by
  constructor
  · intro cached hc he
    simp [fromId, hc, storyIdToEntry, he]
  · intro hc
    simp [fromId, hc]

/-- Claim C9 witness: the materialized demo store returns null for a missing
identifier, and the unmaterialized demo store throws the usage error. -/
theorem claim_C9_witness :
    fromId matStore "missing" = (.ok none, matStore) ∧
      fromId demoStore "missing" = (.error .cannotCallFromId, demoStore) :=
  ⟨(claim_C9 matStore "missing").1 [("Button.stories.ts", demoCSF)] rfl (by decide),
   (claim_C9 demoStore "missing").2 rfl⟩

/-- Claim C10: `cleanupStory` invokes cleanup on the story's hook handle but
does not remove it from the registry (the entry keeps its object identity,
now cleaned), leaves every other registry entry and every other store field
unchanged, and a subsequent `storyFromCSFFile` for the same identifier reuses
that identical handle instead of creating a new one. -/
theorem claim_C10 (s : Store) (story : PreparedStory) (h : Hook)
    (hh : alookup s.hooks story.id = some h) :
    ∃ s2, cleanupStory s story = some s2 ∧
      alookup s2.hooks story.id = some ⟨h.ident, true⟩ ∧
      (∀ id2, id2 ≠ story.id → alookup s2.hooks id2 = alookup s.hooks id2) ∧
      s2.hooks.map Prod.fst = s.hooks.map Prod.fst ∧
      CleanupFrame s s2 ∧
      (∀ f storyId o,
        (storyFromCSFFile s2 storyId f).1 = .ok o → o.val.id = story.id →
          (storyFromCSFFile s2 storyId f).2.hooks = s2.hooks) := by
  refine ⟨{ s with hooks := s.hooks.map fun p =>
      if p.1 = story.id then (p.1, p.2.clean) else p }, ?_, ?_, ?_, ?_, ?_, ?_⟩
  · simp [cleanupStory, hh]
  · show alookup (s.hooks.map fun p => if p.1 = story.id then (p.1, p.2.clean) else p)
      story.id = some ⟨h.ident, true⟩
    rw [alookup_map_update, if_pos rfl, hh]
    rfl
  · intro id2 hne
    show alookup (s.hooks.map fun p => if p.1 = story.id then (p.1, p.2.clean) else p)
      id2 = alookup s.hooks id2
    rw [alookup_map_update, if_neg hne]
  · exact map_fst_map_update s.hooks story.id Hook.clean
  · exact ⟨rfl, rfl, rfl, rfl, rfl, rfl, rfl, rfl, rfl, rfl, rfl⟩
  · intro f storyId o hok hid
    apply storyFromCSFFile_hooks_of_present _ storyId f o hok
    rw [hid]
    show (alookup (s.hooks.map fun p =>
      if p.1 = story.id then (p.1, p.2.clean) else p) story.id).isSome
    rw [alookup_map_update, if_pos rfl, hh]
    rfl

/-- Claim C10 witness: on a store holding a single registered handle with
identity 50, cleanup keeps that identity, cleans it, and changes nothing else. -/
theorem claim_C10_witness :
    ∃ s2, cleanupStory hookStore demoPrepared = some s2 ∧
      alookup s2.hooks demoPrepared.id = some ⟨50, true⟩ ∧
      (∀ id2, id2 ≠ demoPrepared.id →
        alookup s2.hooks id2 = alookup hookStore.hooks id2) ∧
      s2.hooks.map Prod.fst = hookStore.hooks.map Prod.fst ∧
      CleanupFrame hookStore s2 ∧
      (∀ f storyId o,
        (storyFromCSFFile s2 storyId f).1 = .ok o → o.val.id = demoPrepared.id →
          (storyFromCSFFile s2 storyId f).2.hooks = s2.hooks) :=
  claim_C10 hookStore demoPrepared ⟨50, false⟩ (by decide)

theorem loadFrame_rfl (s : Store) : LoadFrame s s :=
  ⟨frame_rfl s, rfl, rfl, rfl, rfl, rfl⟩

theorem loadFrame_trans {s1 s2 s3 : Store} (h1 : LoadFrame s1 s2) (h2 : LoadFrame s2 s3) :
    LoadFrame s1 s3 := by
  obtain ⟨f1, a1, b1, c1, d1, e1⟩ := h1
  obtain ⟨f2, a2, b2, c2, d2, e2⟩ := h2
  exact ⟨frame_trans f1 f2, a2.trans a1, b2.trans b1, c2.trans c1, d2.trans d1, e2.trans e1⟩

theorem prepareCacheOK_congr {s s1 : Store} (hc : s1.prepareCache = s.prepareCache)
    (hp : s1.prepareStory = s.prepareStory) (h : PrepareCacheOK s) : PrepareCacheOK s1 := by
  intro k o hm
  rw [hc] at hm
  rw [hp]
  exact h k o hm

theorem loadErrorOf_congr {s s1 : Store} (he : s1.entries = s.entries)
    (hi : s1.importFn = s.importFn) : loadErrorOf s1 = loadErrorOf s := by
  funext storyId
  unfold loadErrorOf
  rw [he, hi]

theorem loadResultD_congr {s s1 : Store} (he : s1.entries = s.entries)
    (hi : s1.importFn = s.importFn) (hp : s1.processCSFFile = s.processCSFFile) :
    loadResultD s1 = loadResultD s := by
  funext storyId
  unfold loadResultD
  rw [he, hi, hp]

theorem processWC_frame (s : Store) (m : ModuleTag) (p : Path) (t : String) :
    LoadFrame s (processCSFFileWithCache s m p t).2 := by
  cases h : alookup s.processCache (m, p, t) <;>
    simp [processCSFFileWithCache, lruFetch, h, LoadFrame, Frame]

theorem processWC_val (s : Store) (m : ModuleTag) (p : Path) (t : String)
    (h : ProcessCacheOK s) :
    (processCSFFileWithCache s m p t).1 = s.processCSFFile m p t := by
  cases hf : alookup s.processCache (m, p, t) with
  | none => simp [processCSFFileWithCache, lruFetch, hf]
  | some f =>
    have := h _ f (alookup_mem hf)
    simp [processCSFFileWithCache, lruFetch, hf, this]

theorem processWC_cacheOK (s : Store) (m : ModuleTag) (p : Path) (t : String)
    (h : ProcessCacheOK s) : ProcessCacheOK (processCSFFileWithCache s m p t).2 := by
  intro k f hmem
  cases hf : alookup s.processCache (m, p, t) with
  | some f2 =>
    simp only [processCSFFileWithCache, lruFetch, hf] at hmem ⊢
    rcases List.mem_cons.mp hmem with h1 | h2
    · injection h1 with hk hv
      subst hk; subst hv
      exact h _ _ (alookup_mem hf)
    · exact h _ _ (List.mem_of_mem_filter h2)
  | none =>
    simp only [processCSFFileWithCache, lruFetch, hf, lruInsert] at hmem ⊢
    have hmem2 := List.take_subset _ _ hmem
    rcases List.mem_cons.mp hmem2 with h1 | h2
    · injection h1 with hk hv
      subst hk; subst hv
      rfl
    · exact h _ _ h2

theorem loadById_frame (s : Store) (storyId : StoryId) :
    LoadFrame s (loadCSFFileByStoryId s storyId).2 := by
  cases ha : alookup s.entries storyId with
  | none =>
    simp only [loadCSFFileByStoryId, storyIdToEntry, ha]
    exact loadFrame_rfl s
  | some ent =>
    cases hi : s.importFn ent.importPath with
    | error n =>
      simp only [loadCSFFileByStoryId, storyIdToEntry, ha, hi]
      exact loadFrame_rfl s
    | ok mod =>
      simp only [loadCSFFileByStoryId, storyIdToEntry, ha, hi]
      exact processWC_frame s mod ent.importPath ent.title

theorem loadById_cacheOK (s : Store) (storyId : StoryId) (h : ProcessCacheOK s) :
    ProcessCacheOK (loadCSFFileByStoryId s storyId).2 := by
  cases ha : alookup s.entries storyId with
  | none => simp only [loadCSFFileByStoryId, storyIdToEntry, ha]; exact h
  | some ent =>
    cases hi : s.importFn ent.importPath with
    | error n => simp only [loadCSFFileByStoryId, storyIdToEntry, ha, hi]; exact h
    | ok mod =>
      simp only [loadCSFFileByStoryId, storyIdToEntry, ha, hi]
      exact processWC_cacheOK s mod ent.importPath ent.title h

theorem loadById_error (s : Store) (storyId : StoryId) (e : StoreError)
    (h : loadErrorOf s storyId = some e) :
    loadCSFFileByStoryId s storyId = (.error e, s) := by
  cases ha : alookup s.entries storyId with
  | none =>
    simp only [loadErrorOf, ha, Option.some.injEq] at h
    simp [loadCSFFileByStoryId, storyIdToEntry, ha, h]
  | some ent =>
    cases hi : s.importFn ent.importPath with
    | error n =>
      simp only [loadErrorOf, ha, hi, Option.some.injEq] at h
      simp [loadCSFFileByStoryId, storyIdToEntry, ha, hi, h]
    | ok mod => simp [loadErrorOf, ha, hi] at h

theorem loadById_fst_ok (s : Store) (storyId : StoryId)
    (h : loadErrorOf s storyId = none) (hpc : ProcessCacheOK s) :
    (loadCSFFileByStoryId s storyId).1 = .ok (loadResultD s storyId) := by
  cases ha : alookup s.entries storyId with
  | none => simp [loadErrorOf, ha] at h
  | some ent =>
    cases hi : s.importFn ent.importPath with
    | error n => simp [loadErrorOf, ha, hi] at h
    | ok mod =>
      simp [loadCSFFileByStoryId, storyIdToEntry, loadResultD, ha, hi,
        processWC_val s mod ent.importPath ent.title hpc]

theorem loadById_exists_ok (s : Store) (storyId : StoryId)
    (h : loadErrorOf s storyId = none) :
    ∃ f1, (loadCSFFileByStoryId s storyId).1 = .ok f1 := by
  cases ha : alookup s.entries storyId with
  | none => simp [loadErrorOf, ha] at h
  | some ent =>
    cases hi : s.importFn ent.importPath with
    | error n => simp [loadErrorOf, ha, hi] at h
    | ok mod =>
      refine ⟨(processCSFFileWithCache s mod ent.importPath ent.title).1, ?_⟩
      simp [loadCSFFileByStoryId, storyIdToEntry, ha, hi]

theorem loadById_ok_loadError (s : Store) (storyId : StoryId) (f : CSFFile) (s1 : Store)
    (h : loadCSFFileByStoryId s storyId = (.ok f, s1)) :
    loadErrorOf s storyId = none := by
  cases hle : loadErrorOf s storyId with
  | none => rfl
  | some e =>
    rw [loadById_error s storyId e hle] at h
    injection h with h1 h2
    cases h1

theorem loadCSFList_frame : ∀ (l : List (Path × StoryId)) (s : Store),
    LoadFrame s (loadCSFList s l).2
  | [], s => loadFrame_rfl s
  | (p, storyId) :: rest, s => by
    have hf1 : LoadFrame s (loadCSFFileByStoryId s storyId).2 := loadById_frame s storyId
    cases hload : loadCSFFileByStoryId s storyId with
    | mk r s1 =>
      rw [hload] at hf1
      cases r with
      | error e => simpa [loadCSFList, hload] using hf1
      | ok f =>
        have hf2 : LoadFrame s1 (loadCSFList s1 rest).2 := loadCSFList_frame rest s1
        cases hrest : loadCSFList s1 rest with
        | mk r2 s2 =>
          rw [hrest] at hf2
          cases r2 <;> simpa [loadCSFList, hload, hrest] using loadFrame_trans hf1 hf2

theorem loadCSFList_cacheOK : ∀ (l : List (Path × StoryId)) (s : Store),
    ProcessCacheOK s → ProcessCacheOK (loadCSFList s l).2
  | [], _, h => h
  | (p, storyId) :: rest, s, h => by
    have h1 : ProcessCacheOK (loadCSFFileByStoryId s storyId).2 := loadById_cacheOK s storyId h
    cases hload : loadCSFFileByStoryId s storyId with
    | mk r s1 =>
      rw [hload] at h1
      cases r with
      | error e => simpa [loadCSFList, hload] using h1
      | ok f =>
        have h2 := loadCSFList_cacheOK rest s1 h1
        cases hrest : loadCSFList s1 rest with
        | mk r2 s2 =>
          rw [hrest] at h2
          cases r2 <;> simpa [loadCSFList, hload, hrest] using h2

theorem loadCSFList_error : ∀ (l : List (Path × StoryId)) (s : Store) (e : StoreError),
    (l.map Prod.snd).findSome? (loadErrorOf s) = some e → (loadCSFList s l).1 = .error e
  | [], s, e, h => by simp [List.findSome?] at h
  | (p, storyId) :: rest, s, e, h => by
    rw [List.map_cons, List.findSome?_cons] at h
    cases hsid : loadErrorOf s storyId with
    | some e0 =>
      rw [hsid] at h
      injection h with h1
      subst h1
      simp [loadCSFList, loadById_error s storyId e0 hsid]
    | none =>
      rw [hsid] at h
      obtain ⟨f1, hf1⟩ := loadById_exists_ok s storyId hsid
      have hfr : LoadFrame s (loadCSFFileByStoryId s storyId).2 := loadById_frame s storyId
      cases hload : loadCSFFileByStoryId s storyId with
      | mk r s1 =>
        rw [hload] at hf1 hfr
        simp only at hf1
        subst hf1
        have hcongr : loadErrorOf s1 = loadErrorOf s :=
          loadErrorOf_congr hfr.1.1 hfr.1.2.1
        rw [← hcongr] at h
        have hrec := loadCSFList_error rest s1 e h
        cases hrest : loadCSFList s1 rest with
        | mk r2 s2 =>
          rw [hrest] at hrec
          simp only at hrec
          subst hrec
          simp [loadCSFList, hload, hrest]

theorem loadCSFList_ok_map : ∀ (l : List (Path × StoryId)) (s : Store),
    ProcessCacheOK s → (∀ q ∈ l, loadErrorOf s q.2 = none) →
      (loadCSFList s l).1 = .ok (l.map fun q => (q.1, loadResultD s q.2))
  | [], s, _, _ => by simp [loadCSFList]
  | (p, storyId) :: rest, s, hpc, hall => by
    have hsid : loadErrorOf s storyId = none := hall (p, storyId) (List.mem_cons_self _ _)
    have hok := loadById_fst_ok s storyId hsid hpc
    have hfr : LoadFrame s (loadCSFFileByStoryId s storyId).2 := loadById_frame s storyId
    have hcache : ProcessCacheOK (loadCSFFileByStoryId s storyId).2 :=
      loadById_cacheOK s storyId hpc
    cases hload : loadCSFFileByStoryId s storyId with
    | mk r s1 =>
      rw [hload] at hok hfr hcache
      simp only at hok
      subst hok
      have hcongrE : loadErrorOf s1 = loadErrorOf s := loadErrorOf_congr hfr.1.1 hfr.1.2.1
      have hcongrD : loadResultD s1 = loadResultD s :=
        loadResultD_congr hfr.1.1 hfr.1.2.1 hfr.1.2.2.2.1
      have hall1 : ∀ q ∈ rest, loadErrorOf s1 q.2 = none := by
        intro q hq
        rw [hcongrE]
        exact hall q (List.mem_cons_of_mem _ hq)
      have hrec := loadCSFList_ok_map rest s1 hcache hall1
      cases hrest : loadCSFList s1 rest with
      | mk r2 s2 =>
        rw [hrest] at hrec
        simp only at hrec
        subst hrec
        simp [loadCSFList, hload, hrest, hcongrD]

theorem loadCSFList_ok_inv : ∀ (l : List (Path × StoryId)) (s : Store)
    (m : List (Path × CSFFile)), (loadCSFList s l).1 = .ok m →
      (∀ q ∈ l, loadErrorOf s q.2 = none) ∧ m.map Prod.fst = l.map Prod.fst
  | [], s, m, h => by
    simp only [loadCSFList] at h
    injection h with h1
    subst h1
    simp
  | (p, storyId) :: rest, s, m, h => by
    cases hload : loadCSFFileByStoryId s storyId with
    | mk r s1 =>
      cases r with
      | error e => simp [loadCSFList, hload] at h
      | ok f =>
        have hsid : loadErrorOf s storyId = none := loadById_ok_loadError s storyId f s1 hload
        have hfr : LoadFrame s (loadCSFFileByStoryId s storyId).2 := loadById_frame s storyId
        rw [hload] at hfr
        have hcongrE : loadErrorOf s1 = loadErrorOf s := loadErrorOf_congr hfr.1.1 hfr.1.2.1
        cases hrest : loadCSFList s1 rest with
        | mk r2 s2 =>
          cases r2 with
          | error e => simp [loadCSFList, hload, hrest] at h
          | ok m2 =>
            simp only [loadCSFList, hload, hrest, Except.ok.injEq] at h
            subst h
            obtain ⟨hall2, hkeys2⟩ := loadCSFList_ok_inv rest s1 m2 (by rw [hrest])
            constructor
            · intro q hq
              rcases List.mem_cons.mp hq with h1 | h2
              · subst h1; exact hsid
              · rw [← hcongrE]; exact hall2 q h2
            · simp [hkeys2]

theorem recordImportPath_map_fst (acc : List (Path × StoryId)) (p : Path) (storyId : StoryId) :
    (recordImportPath acc p storyId).map Prod.fst =
      if acc.any (fun q => decide (q.1 = p)) then acc.map Prod.fst
      else acc.map Prod.fst ++ [p] := by
  unfold recordImportPath
  by_cases h : acc.any (fun q => decide (q.1 = p)) = true
  · rw [if_pos h, if_pos h, List.map_map]
    apply List.map_congr_left
    intro q _
    by_cases hq1 : q.1 = p
    · simp [hq1]
    · simp [hq1]
  · rw [if_neg h, if_neg h, List.map_append]
    rfl

theorem recordImportPath_mem {acc : List (Path × StoryId)} {p : Path} {storyId : StoryId}
    {q : Path × StoryId} (h : q ∈ recordImportPath acc p storyId) :
    q ∈ acc ∨ q = (p, storyId) := by
  unfold recordImportPath at h
  by_cases hb : acc.any (fun q => decide (q.1 = p)) = true
  · rw [if_pos hb] at h
    obtain ⟨q0, hq0, hq⟩ := List.mem_map.mp h
    by_cases h1 : q0.1 = p
    · right; rw [← hq, if_pos h1]
    · left; rw [← hq, if_neg h1]; exact hq0
  · rw [if_neg hb] at h
    rcases List.mem_append.mp h with h1 | h2
    · exact Or.inl h1
    · exact Or.inr (by simpa using h2)

theorem importPathsOf_fold_mem : ∀ (l : List (StoryId × IndexEntry))
    (acc : List (Path × StoryId)) (q : Path × StoryId),
    q ∈ l.foldl (fun acc e => recordImportPath acc e.2.importPath e.1) acc →
      q ∈ acc ∨ ∃ e ∈ l, q = (e.2.importPath, e.1)
  | [], acc, q, h => Or.inl h
  | e :: rest, acc, q, h => by
    rw [List.foldl_cons] at h
    rcases importPathsOf_fold_mem rest (recordImportPath acc e.2.importPath e.1) q h with
      h1 | ⟨e2, he2, hq⟩
    · rcases recordImportPath_mem h1 with h2 | h2
      · exact Or.inl h2
      · exact Or.inr ⟨e, List.mem_cons_self _ _, h2⟩
    · exact Or.inr ⟨e2, List.mem_cons_of_mem _ he2, hq⟩

theorem importPathsOf_pairs (entries : List (StoryId × IndexEntry)) (q : Path × StoryId)
    (hq : q ∈ importPathsOf entries) : ∃ e ∈ entries, q = (e.2.importPath, e.1) := by
  rcases importPathsOf_fold_mem entries [] q hq with h | h
  · cases h
  · exact h

theorem recordImportPath_keys_mem (acc : List (Path × StoryId)) (p : Path)
    (storyId : StoryId) (p0 : Path) :
    p0 ∈ (recordImportPath acc p storyId).map Prod.fst ↔
      p0 ∈ acc.map Prod.fst ∨ p0 = p := by
  rw [recordImportPath_map_fst]
  by_cases hb : acc.any (fun q => decide (q.1 = p)) = true
  · rw [if_pos hb]
    constructor
    · exact Or.inl
    · rintro (h | h)
      · exact h
      · subst h
        obtain ⟨q, hq, hq1⟩ := List.any_eq_true.mp hb
        have hq2 : q.1 = p0 := by simpa using hq1
        exact List.mem_map.mpr ⟨q, hq, hq2⟩
  · rw [if_neg hb]
    simp

theorem importPathsOf_keys_mem : ∀ (l : List (StoryId × IndexEntry))
    (acc : List (Path × StoryId)) (p0 : Path),
    p0 ∈ (l.foldl (fun acc e => recordImportPath acc e.2.importPath e.1) acc).map Prod.fst ↔
      p0 ∈ acc.map Prod.fst ∨ ∃ e ∈ l, e.2.importPath = p0
  | [], acc, p0 => by simp
  | e :: rest, acc, p0 => by
    rw [List.foldl_cons,
      importPathsOf_keys_mem rest (recordImportPath acc e.2.importPath e.1) p0,
      recordImportPath_keys_mem]
    constructor
    · rintro ((h | h) | ⟨e2, he2, hp⟩)
      · exact Or.inl h
      · exact Or.inr ⟨e, List.mem_cons_self _ _, h.symm⟩
      · exact Or.inr ⟨e2, List.mem_cons_of_mem _ he2, hp⟩
    · rintro (h | ⟨e2, he2, hp⟩)
      · exact Or.inl (Or.inl h)
      · rcases List.mem_cons.mp he2 with h1 | h1
        · subst h1; exact Or.inl (Or.inr hp.symm)
        · exact Or.inr ⟨e2, h1, hp⟩

theorem recordImportPath_keys_nodup (acc : List (Path × StoryId)) (p : Path)
    (storyId : StoryId) (h : (acc.map Prod.fst).Nodup) :
    ((recordImportPath acc p storyId).map Prod.fst).Nodup := by
  rw [recordImportPath_map_fst]
  by_cases hb : acc.any (fun q => decide (q.1 = p)) = true
  · rw [if_pos hb]; exact h
  · rw [if_neg hb]
    have hp : p ∉ acc.map Prod.fst := by
      intro hmem
      obtain ⟨q, hq, hq1⟩ := List.mem_map.mp hmem
      exact hb (List.any_eq_true.mpr ⟨q, hq, by simp [hq1]⟩)
    simp [List.nodup_append, h, hp]

theorem importPathsOf_keys_nodup : ∀ (l : List (StoryId × IndexEntry))
    (acc : List (Path × StoryId)), (acc.map Prod.fst).Nodup →
      ((l.foldl (fun acc e => recordImportPath acc e.2.importPath e.1) acc).map Prod.fst).Nodup
  | [], _, h => h
  | e :: rest, acc, h => by
    rw [List.foldl_cons]
    exact importPathsOf_keys_nodup rest _ (recordImportPath_keys_nodup acc _ _ h)

theorem loadCSFList_isOk : ∀ (l : List (Path × StoryId)) (s : Store),
    (∀ q ∈ l, loadErrorOf s q.2 = none) →
      ∃ m s1, loadCSFList s l = (.ok m, s1)
  | [], s, _ => ⟨[], s, rfl⟩
  | (p, storyId) :: rest, s, hall => by
    have hsid : loadErrorOf s storyId = none := hall (p, storyId) (List.mem_cons_self _ _)
    obtain ⟨f1, hf1⟩ := loadById_exists_ok s storyId hsid
    have hfr : LoadFrame s (loadCSFFileByStoryId s storyId).2 := loadById_frame s storyId
    cases hload : loadCSFFileByStoryId s storyId with
    | mk r s1 =>
      rw [hload] at hf1 hfr
      simp only at hf1
      subst hf1
      have hcongrE : loadErrorOf s1 = loadErrorOf s := loadErrorOf_congr hfr.1.1 hfr.1.2.1
      have hall1 : ∀ q ∈ rest, loadErrorOf s1 q.2 = none := by
        intro q hq
        rw [hcongrE]
        exact hall q (List.mem_cons_of_mem _ hq)
      obtain ⟨m2, s2, hrest⟩ := loadCSFList_isOk rest s1 hall1
      exact ⟨(p, f1) :: m2, s2, by simp [loadCSFList, hload, hrest]⟩

theorem cacheAll_ok_of_none (s : Store)
    (hnone : ((importPathsOf s.entries).map Prod.snd).findSome? (loadErrorOf s) = none) :
    (cacheAllCSFFiles s).1 = .ok () := by
  have hall : ∀ q ∈ importPathsOf s.entries, loadErrorOf s q.2 = none := by
    intro q hq
    exact List.findSome?_eq_none_iff.mp hnone q.2 (List.mem_map_of_mem _ hq)
  obtain ⟨m, s1, hres⟩ := loadCSFList_isOk (importPathsOf s.entries) s hall
  have hres2 : loadAllCSFFiles s = (.ok m, s1) := hres
  simp [cacheAllCSFFiles, hres2]

/-- Claim C2: if any one of the loads issued by `loadAllCSFFiles` fails, the
aggregate call fails with the first such failure, no partial path-to-record
mapping is returned, and `cacheAllCSFFiles` does not assign `cachedCSFFiles`. -/
theorem claim_C2 (s : Store) (e : StoreError)
    (hfail : ((importPathsOf s.entries).map Prod.snd).findSome? (loadErrorOf s) = some e) :
    (loadAllCSFFiles s).1 = .error e ∧
      (cacheAllCSFFiles s).1 = .error e ∧
      (cacheAllCSFFiles s).2.cachedCSFFiles = s.cachedCSFFiles := by
  have h1 : (loadAllCSFFiles s).1 = .error e :=
    loadCSFList_error (importPathsOf s.entries) s e hfail
  have hfr : LoadFrame s (loadAllCSFFiles s).2 :=
    loadCSFList_frame (importPathsOf s.entries) s
  cases hres : loadAllCSFFiles s with
  | mk r s1 =>
    rw [hres] at h1 hfr
    simp only at h1
    subst h1
    have hc : cacheAllCSFFiles s = (.error e, s1) := by
      simp [cacheAllCSFFiles, hres]
    refine ⟨rfl, by rw [hc], ?_⟩
    rw [hc]
    exact hfr.1.2.2.2.2.2

/-- Claim C2 witness: on a materialized store whose single entry points at a
failing module, the aggregate load and the cache operation fail with that
loader failure and the previously materialized map is left in place. -/
theorem claim_C2_witness :
    (loadAllCSFFiles failStore).1 = .error (.loaderFailure 7) ∧
      (cacheAllCSFFiles failStore).1 = .error (.loaderFailure 7) ∧
      (cacheAllCSFFiles failStore).2.cachedCSFFiles = failStore.cachedCSFFiles :=
  claim_C2 failStore (.loaderFailure 7) (by decide)

/-- Claim C3, amended: `onStoriesChanged` performs no validation of its inputs
and completes normally whenever no materialized map exists, or when one exists
and the eager bulk re-load succeeds; but when a materialized map exists and the
re-load fails, the failure propagates to the caller through the awaited
`cacheAllCSFFiles` call. -/
theorem claim_C3_amended (s : Store) (importFn2 : Option ImportFn)
    (idx2 : Option (List (StoryId × IndexEntry))) :
    (s.cachedCSFFiles = none → (onStoriesChanged s importFn2 idx2).1 = .ok ()) ∧
      (s.cachedCSFFiles ≠ none →
        (((importPathsOf (applySourceUpdate s importFn2 idx2).entries).map Prod.snd).findSome?
              (loadErrorOf (applySourceUpdate s importFn2 idx2)) = none →
            (onStoriesChanged s importFn2 idx2).1 = .ok ()) ∧
          (∀ e, ((importPathsOf (applySourceUpdate s importFn2 idx2).entries).map
                Prod.snd).findSome?
              (loadErrorOf (applySourceUpdate s importFn2 idx2)) = some e →
            (onStoriesChanged s importFn2 idx2).1 = .error e)) := by
  have hcc : (applySourceUpdate s importFn2 idx2).cachedCSFFiles = s.cachedCSFFiles := rfl
  constructor
  · intro h
    simp [onStoriesChanged, hcc, h]
  · intro h
    cases hc : s.cachedCSFFiles with
    | none => exact absurd hc h
    | some cached =>
      constructor
      · intro hnone
        have hok := cacheAll_ok_of_none (applySourceUpdate s importFn2 idx2) hnone
        simp only [onStoriesChanged, hcc, hc]
        exact hok
      · intro e hsome
        have h1 : (loadAllCSFFiles (applySourceUpdate s importFn2 idx2)).1 = .error e :=
          loadCSFList_error _ (applySourceUpdate s importFn2 idx2) e hsome
        cases hres : loadAllCSFFiles (applySourceUpdate s importFn2 idx2) with
        | mk r s2 =>
          rw [hres] at h1
          simp only at h1
          subst h1
          simp only [onStoriesChanged, hcc, hc]
          simp [cacheAllCSFFiles, hres]

/-- Claim C3 counterexample: on a concrete materialized store whose entry points
at a failing module, `onStoriesChanged` signals the loader failure to its
caller, contradicting the claim that it never signals an error. -/
theorem claim_C3_counterexample :
    (onStoriesChanged failStore none none).1 = .error (.loaderFailure 7) := by decide

/-- Claim C3 witness: without a materialized map the call completes normally;
with one, it completes normally when the re-load succeeds and propagates the
failure when it does not. -/
theorem claim_C3_witness :
    (onStoriesChanged demoStore none none).1 = .ok () ∧
      (onStoriesChanged matStore none none).1 = .ok () ∧
      (onStoriesChanged failStore none none).1 = .error (.loaderFailure 7) :=
  ⟨(claim_C3_amended demoStore none none).1 rfl,
   ((claim_C3_amended matStore none none).2 (by decide)).1 (by decide),
   ((claim_C3_amended failStore none none).2 (by decide)).2 (.loaderFailure 7) (by decide)⟩

/-- Claim C7: `loadAllCSFFiles` issues exactly one load per distinct
backing-module path referenced by the index (the deduplicated path table, with
one representative story identifier per path), and on success returns a mapping
whose key list is exactly that deduplicated path list (no duplicates, and a
path is a key exactly when some index entry references it), each key mapped to
the Structured File Record processed from its loaded module. -/
theorem claim_C7 (s : Store) (m : List (Path × CSFFile))
    (hnd : (s.entries.map Prod.fst).Nodup) (hpc : ProcessCacheOK s)
    (hok : (loadAllCSFFiles s).1 = .ok m) :
    m.map Prod.fst = (importPathsOf s.entries).map Prod.fst ∧
      (m.map Prod.fst).Nodup ∧
      (∀ p, p ∈ m.map Prod.fst ↔ ∃ q ∈ s.entries, q.2.importPath = p) ∧
      (∀ pf ∈ m, ∃ storyId ent mod,
        alookup s.entries storyId = some ent ∧ ent.importPath = pf.1 ∧
          s.importFn pf.1 = .ok mod ∧ pf.2 = s.processCSFFile mod pf.1 ent.title) := by
  obtain ⟨hall, hkeys⟩ := loadCSFList_ok_inv (importPathsOf s.entries) s m hok
  have hmap := loadCSFList_ok_map (importPathsOf s.entries) s hpc hall
  have hm : m = (importPathsOf s.entries).map fun q => (q.1, loadResultD s q.2) := by
    have hok2 : (loadAllCSFFiles s).1 =
        .ok ((importPathsOf s.entries).map fun q => (q.1, loadResultD s q.2)) := hmap
    rw [hok] at hok2
    exact Except.ok.inj hok2
  refine ⟨hkeys, ?_, ?_, ?_⟩
  · rw [hkeys]
    exact importPathsOf_keys_nodup s.entries [] (by simp)
  · intro p
    rw [hkeys]
    have := importPathsOf_keys_mem s.entries [] p
    simpa using this
  · intro pf hpf
    rw [hm] at hpf
    obtain ⟨q, hq, hpfq⟩ := List.mem_map.mp hpf
    obtain ⟨e, he, hqe⟩ := importPathsOf_pairs s.entries q hq
    have hlk : alookup s.entries e.1 = some e.2 := alookup_of_mem_nodup he hnd
    have hnone := hall q hq
    subst hqe
    cases hi : s.importFn e.2.importPath with
    | error n => simp [loadErrorOf, hlk, hi] at hnone
    | ok mod =>
      refine ⟨e.1, e.2, mod, hlk, ?_, ?_, ?_⟩
      · rw [← hpfq]
      · rw [← hpfq]; exact hi
      · rw [← hpfq]
        simp only [loadResultD, hlk, hi]

/-- Claim C7 witness: on the demo store with one entry, the load succeeds and
the returned mapping has exactly the one deduplicated path as its key, bound to
the processed record of the loaded module. -/
theorem claim_C7_witness :
    [("Button.stories.ts", demoCSF)].map Prod.fst =
        (importPathsOf demoStore.entries).map Prod.fst ∧
      ([("Button.stories.ts", demoCSF)].map (Prod.fst (α := Path) (β := CSFFile))).Nodup ∧
      (∀ p, p ∈ [("Button.stories.ts", demoCSF)].map Prod.fst ↔
        ∃ q ∈ demoStore.entries, q.2.importPath = p) ∧
      (∀ pf ∈ [("Button.stories.ts", demoCSF)], ∃ storyId ent mod,
        alookup demoStore.entries storyId = some ent ∧ ent.importPath = pf.1 ∧
          demoStore.importFn pf.1 = .ok mod ∧
          pf.2 = demoStore.processCSFFile mod pf.1 ent.title) :=
  claim_C7 demoStore [("Button.stories.ts", demoCSF)] (by decide)
    (fun _ _ h => absurd h (List.not_mem_nil _)) (by decide)

theorem alookup_isSome_iff {κ α : Type} [DecidableEq κ] {l : List (κ × α)} {k : κ} :
    (alookup l k).isSome ↔ k ∈ l.map Prod.fst := by
  constructor
  · intro hs
    by_contra hmem
    rw [alookup_eq_none_iff.mpr hmem] at hs
    cases hs
  · intro hmem
    cases h : alookup l k with
    | none => exact absurd hmem (alookup_eq_none_iff.mp h)
    | some v => rfl

theorem alookup_append {κ α : Type} [DecidableEq κ] (l1 l2 : List (κ × α)) (k : κ) :
    alookup (l1 ++ l2) k =
      match alookup l1 k with
      | some v => some v
      | none => alookup l2 k := by
  induction l1 with
  | nil => simp [alookup]
  | cons q rest ih =>
    obtain ⟨k1, v1⟩ := q
    by_cases h : k1 = k
    · simp [alookup, h]
    · simp [alookup, h, ih]

theorem alookup_unique {κ α : Type} [DecidableEq κ] {l : List (κ × α)} {k : κ} {v1 v2 : α}
    (hnd : (l.map Prod.fst).Nodup) (h1 : (k, v1) ∈ l) (h2 : (k, v2) ∈ l) : v1 = v2 := by
  have e1 := alookup_of_mem_nodup h1 hnd
  have e2 := alookup_of_mem_nodup h2 hnd
  rw [e1] at e2
  exact Option.some.inj e2

theorem entryType_story {t : EntryType} (h : ¬ t = EntryType.docs) : t = EntryType.story := by
  cases t
  · rfl
  · exact absurd rfl h

theorem alookup_map_assign {α : Type} (acc : List (String × α)) (k : String) (v : α)
    (k2 : String) :
    alookup (acc.map fun p => if p.1 = k then (k, v) else p) k2 =
      if k2 = k then (alookup acc k).map (fun _ => v) else alookup acc k2 := by
  induction acc with
  | nil => by_cases h : k2 = k <;> simp [alookup, h]
  | cons q rest ih =>
    obtain ⟨k1, v1⟩ := q
    rw [List.map_cons]
    by_cases h1 : k1 = k
    · subst h1
      rw [show (if (k1, v1).1 = k1 then (k1, v) else (k1, v1)) = (k1, v) from if_pos rfl]
      by_cases h2 : k2 = k1
      · subst h2
        simp [alookup]
      · have h3 : ¬ k1 = k2 := fun h => h2 h.symm
        simp only [alookup, if_neg h3, if_neg h2, ih]
    · rw [show (if (k1, v1).1 = k then (k, v) else (k1, v1)) = (k1, v1) from if_neg h1]
      by_cases h2 : k1 = k2
      · subst h2
        have h3 : ¬ k1 = k := h1
        simp [alookup, h3]
      · simp only [alookup, if_neg h2, ih]
        by_cases h4 : k2 = k
        · rw [if_pos h4, if_pos h4, if_neg h1]
        · rw [if_neg h4, if_neg h4]

theorem alookup_assignField_self (acc : List (String × Value)) (k : String) (v : Value) :
    alookup (assignField acc k v) k = some v := by
  unfold assignField
  by_cases hb : acc.any (fun p => decide (p.1 = k)) = true
  · rw [if_pos hb, alookup_map_assign, if_pos rfl]
    obtain ⟨p, hp, hp1⟩ := List.any_eq_true.mp hb
    have hmem : k ∈ acc.map Prod.fst := List.mem_map.mpr ⟨p, hp, by simpa using hp1⟩
    cases hl : alookup acc k with
    | none => exact absurd hmem (alookup_eq_none_iff.mp hl)
    | some w => rfl
  · rw [if_neg hb, alookup_append]
    have hk : k ∉ acc.map Prod.fst := by
      intro hmem
      obtain ⟨p, hp, hp1⟩ := List.mem_map.mp hmem
      exact hb (List.any_eq_true.mpr ⟨p, hp, by simp [hp1]⟩)
    rw [alookup_eq_none_iff.mpr hk]
    simp [alookup]

theorem alookup_assignField_ne (acc : List (String × Value)) (k : String) (v : Value)
    (k2 : String) (h : k2 ≠ k) :
    alookup (assignField acc k v) k2 = alookup acc k2 := by
  unfold assignField
  by_cases hb : acc.any (fun p => decide (p.1 = k)) = true
  · rw [if_pos hb, alookup_map_assign, if_neg h]
  · rw [if_neg hb, alookup_append]
    cases hl : alookup acc k2 with
    | some w => rfl
    | none =>
      have h2 : ¬ k = k2 := fun hh => h hh.symm
      simp [alookup, h2]

theorem assignField_mem {acc : List (String × Value)} {k : String} {v : Value}
    {kv : String × Value} (h : kv ∈ assignField acc k v) : kv ∈ acc ∨ kv = (k, v) := by
  unfold assignField at h
  by_cases hb : acc.any (fun p => decide (p.1 = k)) = true
  · rw [if_pos hb] at h
    obtain ⟨q0, hq0, hq⟩ := List.mem_map.mp h
    by_cases h1 : q0.1 = k
    · right; rw [← hq, if_pos h1]
    · left; rw [← hq, if_neg h1]; exact hq0
  · rw [if_neg hb] at h
    rcases List.mem_append.mp h with h1 | h2
    · exact Or.inl h1
    · exact Or.inr (by simpa using h2)

theorem extractField_no_fn (acc : List (String × Value)) (kv0 : String × Value)
    (h : ∀ kv ∈ acc, ∀ n, kv.2 ≠ Value.fn n) :
    ∀ kv ∈ extractField acc kv0, ∀ n, kv.2 ≠ Value.fn n := by
  unfold extractField
  by_cases hk : kv0.1 = "moduleExport"
  · rw [if_pos hk]; exact h
  · rw [if_neg hk]
    cases hv : kv0.2 with
    | fn i => exact h
    | arr l =>
      intro kv hkv n
      rcases assignField_mem hkv with h1 | h1
      · exact h kv h1 n
      · rw [h1]; simp
    | prim v =>
      intro kv hkv n
      rcases assignField_mem hkv with h1 | h1
      · exact h kv h1 n
      · rw [h1]; simp
    | argsObj a2 =>
      intro kv hkv n
      rcases assignField_mem hkv with h1 | h1
      · exact h kv h1 n
      · rw [h1]; simp

theorem foldl_extractField_no_fn : ∀ (fields : List (String × Value))
    (acc : List (String × Value)), (∀ kv ∈ acc, ∀ n, kv.2 ≠ Value.fn n) →
      ∀ kv ∈ fields.foldl extractField acc, ∀ n, kv.2 ≠ Value.fn n
  | [], _, h => h
  | kv0 :: rest, acc, h => by
    rw [List.foldl_cons]
    exact foldl_extractField_no_fn rest _ (extractField_no_fn acc kv0 h)

theorem extractRecord_no_fn (story : PreparedStory) :
    ∀ kv ∈ extractRecord story, ∀ n, kv.2 ≠ Value.fn n := by
  apply foldl_extractField_no_fn
  intro kv hkv n
  rcases List.mem_singleton.mp hkv with h
  rw [h]
  simp

theorem extractField_alookup_ne (acc : List (String × Value)) (kv0 : String × Value)
    (k2 : String) (hne : kv0.1 ≠ k2) :
    alookup (extractField acc kv0) k2 = alookup acc k2 := by
  unfold extractField
  by_cases hk : kv0.1 = "moduleExport"
  · rw [if_pos hk]
  · rw [if_neg hk]
    have h2 : k2 ≠ kv0.1 := fun h => hne h.symm
    cases kv0.2 with
    | fn i => rfl
    | arr l => exact alookup_assignField_ne acc kv0.1 _ k2 h2
    | prim v => exact alookup_assignField_ne acc kv0.1 _ k2 h2
    | argsObj a2 => exact alookup_assignField_ne acc kv0.1 _ k2 h2

theorem foldl_extractField_args : ∀ (fields : List (String × Value))
    (acc : List (String × Value)), (∀ kv ∈ fields, kv.1 ≠ "args") →
      alookup (fields.foldl extractField acc) "args" = alookup acc "args"
  | [], _, _ => rfl
  | kv0 :: rest, acc, h => by
    rw [List.foldl_cons,
      foldl_extractField_args rest _ (fun kv hkv => h kv (List.mem_cons_of_mem _ hkv)),
      extractField_alookup_ne acc kv0 _ (h kv0 (List.mem_cons_self _ _))]

theorem extractRecord_args (story : PreparedStory)
    (hargs : ∀ kv ∈ story.fields, kv.1 ≠ "args") :
    alookup (extractRecord story) "args" = some (.argsObj story.initialArgs) := by
  unfold extractRecord
  rw [foldl_extractField_args story.fields _ hargs]
  simp [alookup]

theorem extractField_arr (fields0 : List (String × Value)) (acc : List (String × Value))
    (kv0 : String × Value) (hkv0 : kv0 ∈ fields0)
    (h : ∀ k l2, (k, Value.arr l2) ∈ acc →
      ∃ l0, (k, Value.arr l0) ∈ fields0 ∧ l2 = sortStrings l0) :
    ∀ k l2, (k, Value.arr l2) ∈ extractField acc kv0 →
      ∃ l0, (k, Value.arr l0) ∈ fields0 ∧ l2 = sortStrings l0 := by
  unfold extractField
  by_cases hk : kv0.1 = "moduleExport"
  · rw [if_pos hk]; exact h
  · rw [if_neg hk]
    cases hv : kv0.2 with
    | fn i => exact h
    | arr l =>
      intro k l2 hmem
      rcases assignField_mem hmem with h1 | h1
      · exact h k l2 h1
      · injection h1 with h2 h3
        subst h2
        refine ⟨l, ?_, ?_⟩
        · have hkv : (kv0.1, Value.arr l) = kv0 := by rw [← hv]
          rw [hkv]
          exact hkv0
        · exact Value.arr.inj h3
    | prim v =>
      intro k l2 hmem
      rcases assignField_mem hmem with h1 | h1
      · exact h k l2 h1
      · injection h1 with h2 h3
        cases h3
    | argsObj a2 =>
      intro k l2 hmem
      rcases assignField_mem hmem with h1 | h1
      · exact h k l2 h1
      · injection h1 with h2 h3
        cases h3

theorem foldl_extractField_arr (fields0 : List (String × Value)) :
    ∀ (fields : List (String × Value)) (acc : List (String × Value)),
      (∀ kv ∈ fields, kv ∈ fields0) →
      (∀ k l2, (k, Value.arr l2) ∈ acc →
        ∃ l0, (k, Value.arr l0) ∈ fields0 ∧ l2 = sortStrings l0) →
      ∀ k l2, (k, Value.arr l2) ∈ fields.foldl extractField acc →
        ∃ l0, (k, Value.arr l0) ∈ fields0 ∧ l2 = sortStrings l0
  | [], _, _, h => h
  | kv0 :: rest, acc, hsub, h => by
    rw [List.foldl_cons]
    exact foldl_extractField_arr fields0 rest _
      (fun kv hkv => hsub kv (List.mem_cons_of_mem _ hkv))
      (extractField_arr fields0 acc kv0 (hsub kv0 (List.mem_cons_self _ _)) h)

theorem extractRecord_arr (story : PreparedStory) :
    ∀ k l2, (k, Value.arr l2) ∈ extractRecord story →
      ∃ l0, (k, Value.arr l0) ∈ story.fields ∧ l2 = sortStrings l0 := by
  apply foldl_extractField_arr story.fields story.fields _ (fun kv hkv => hkv)
  intro k l2 hmem
  rcases List.mem_singleton.mp hmem with h
  injection h with h1 h2
  cases h2

theorem sortStrings_perm (l : List String) : (sortStrings l).Perm l :=
  List.perm_insertionSort _ l

theorem sortStrings_sorted (l : List String) :
    List.Sorted (fun a b => a ≤ b) (sortStrings l) :=
  List.sorted_insertionSort _ l

theorem storyFromCSFFile_ok_stories (s : Store) (storyId : StoryId) (f : CSFFile)
    (o : StoryObj) (s1 : Store) (h : storyFromCSFFile s storyId f = (.ok o, s1)) :
    ∃ a, alookup f.stories storyId = some a := by
  cases ha : alookup f.stories storyId with
  | none =>
    rw [storyFromCSFFile_none s storyId f ha] at h
    injection h with h1 h2
    cases h1
  | some a => exact ⟨a, rfl⟩

theorem storyFromCSFFile_ok_val (s : Store) (storyId : StoryId) (f : CSFFile) (a : Ann)
    (o : StoryObj) (s1 : Store) (hprep : PrepareCacheOK s)
    (ha : alookup f.stories storyId = some a)
    (h : storyFromCSFFile s storyId f = (.ok o, s1)) :
    o.val = s.prepareStory a f.meta s.projectAnnotations := by
  have hfst := storyFromCSFFile_fst s storyId f a ha
  rw [h] at hfst
  simp only at hfst
  rw [Except.ok.inj hfst]
  exact prepareWC_val s a f.meta s.projectAnnotations hprep

theorem extractEntries_isOk (b : Bool) (cached : List (Path × CSFFile)) :
    ∀ (l : List (StoryId × IndexEntry)) (s : Store), PrepareCacheOK s →
      (∀ q ∈ l, q.2.type = EntryType.story →
        ∃ f, alookup cached q.2.importPath = some f ∧
          ∃ a, alookup f.stories q.1 = some a) →
      ∃ recs, (extractEntries s b cached l).1 = .ok recs
  | [], s, _, _ => ⟨[], by simp [extractEntries]⟩
  | (storyId, ent) :: rest, s, hprep, hcov => by
    by_cases hdocs : ent.type = EntryType.docs
    · obtain ⟨recs, hr⟩ := extractEntries_isOk b cached rest s hprep
        (fun q hq => hcov q (List.mem_cons_of_mem _ hq))
      exact ⟨recs, by simpa [extractEntries, if_pos hdocs] using hr⟩
    · obtain ⟨f, hf, a, ha⟩ := hcov (storyId, ent) (List.mem_cons_self _ _)
        (entryType_story hdocs)
      have hfst := storyFromCSFFile_fst s storyId f a ha
      cases hcall : storyFromCSFFile s storyId f with
      | mk r s1 =>
        rw [hcall] at hfst
        simp only at hfst
        subst hfst
        have hprep1 : PrepareCacheOK s1 := by
          have := storyFromCSFFile_cacheOK s storyId f hprep
          rw [hcall] at this
          exact this
        obtain ⟨recs2, hr2⟩ := extractEntries_isOk b cached rest s1 hprep1
          (fun q hq => hcov q (List.mem_cons_of_mem _ hq))
        by_cases hskip :
            b = false ∧ (prepareStoryWithCache s a f.meta s.projectAnnotations).1.val.docsOnly = true
        · refine ⟨recs2, ?_⟩
          simp only [extractEntries, if_neg hdocs, hf, hcall, if_pos hskip]
          exact hr2
        · refine ⟨(storyId,
            extractRecord (prepareStoryWithCache s a f.meta s.projectAnnotations).1.val) ::
              recs2, ?_⟩
          cases hrest : extractEntries s1 b cached rest with
          | mk r2 s2 =>
            rw [hrest] at hr2
            simp only at hr2
            subst hr2
            simp [extractEntries, if_neg hdocs, hf, hcall, if_neg hskip, hrest]

theorem extractEntries_mem (b : Bool) (cached : List (Path × CSFFile)) :
    ∀ (l : List (StoryId × IndexEntry)) (s : Store)
      (recs : List (StoryId × List (String × Value))),
      PrepareCacheOK s → (extractEntries s b cached l).1 = .ok recs →
      ∀ storyId rec, (storyId, rec) ∈ recs →
        ∃ ent f a, (storyId, ent) ∈ l ∧ ent.type = EntryType.story ∧
          alookup cached ent.importPath = some f ∧ alookup f.stories storyId = some a ∧
          rec = extractRecord (s.prepareStory a f.meta s.projectAnnotations) ∧
          (b = true ∨ (s.prepareStory a f.meta s.projectAnnotations).docsOnly = false)
  | [], s, recs, _, hok, storyId, rec, hmem => by
    simp only [extractEntries] at hok
    injection hok with h1
    subst h1
    cases hmem
  | (sid0, ent) :: rest, s, recs, hprep, hok, storyId, rec, hmem => by
    by_cases hdocs : ent.type = EntryType.docs
    · have hok2 : (extractEntries s b cached rest).1 = .ok recs := by
        simpa [extractEntries, if_pos hdocs] using hok
      obtain ⟨ent2, f, a, hm2, hty, hf, ha, hrec, hdo⟩ :=
        extractEntries_mem b cached rest s recs hprep hok2 storyId rec hmem
      exact ⟨ent2, f, a, List.mem_cons_of_mem _ hm2, hty, hf, ha, hrec, hdo⟩
    · cases hflk : alookup cached ent.importPath with
      | none => simp [extractEntries, if_neg hdocs, hflk] at hok
      | some f =>
        cases hcall : storyFromCSFFile s sid0 f with
        | mk r s1 =>
          cases r with
          | error e => simp [extractEntries, if_neg hdocs, hflk, hcall] at hok
          | ok o =>
            obtain ⟨a, ha⟩ := storyFromCSFFile_ok_stories s sid0 f o s1 hcall
            have hval : o.val = s.prepareStory a f.meta s.projectAnnotations :=
              storyFromCSFFile_ok_val s sid0 f a o s1 hprep ha hcall
            have hprep1 : PrepareCacheOK s1 := by
              have := storyFromCSFFile_cacheOK s sid0 f hprep
              rw [hcall] at this
              exact this
            have hfr := storyFromCSFFile_frame s sid0 f
            rw [hcall] at hfr
            have hps : s1.prepareStory = s.prepareStory := hfr.1.2.2.2.2.1
            have hpa : s1.projectAnnotations = s.projectAnnotations := hfr.1.2.2.1
            by_cases hskip : b = false ∧ o.val.docsOnly = true
            · have hok2 : (extractEntries s1 b cached rest).1 = .ok recs := by
                simpa [extractEntries, if_neg hdocs, hflk, hcall, if_pos hskip] using hok
              obtain ⟨ent2, f2, a2, hm2, hty, hf2, ha2, hrec, hdo⟩ :=
                extractEntries_mem b cached rest s1 recs hprep1 hok2 storyId rec hmem
              rw [hps, hpa] at hrec hdo
              exact ⟨ent2, f2, a2, List.mem_cons_of_mem _ hm2, hty, hf2, ha2, hrec, hdo⟩
            · cases hrest : extractEntries s1 b cached rest with
              | mk r2 s2 =>
                cases r2 with
                | error e =>
                  simp [extractEntries, if_neg hdocs, hflk, hcall, if_neg hskip, hrest] at hok
                | ok recs2 =>
                  have hok2 : ((sid0, extractRecord o.val) :: recs2) = recs := by
                    have h3 := hok
                    simp only [extractEntries, if_neg hdocs, hflk, hcall, if_neg hskip,
                      hrest, Except.ok.injEq] at h3
                    exact h3
                  subst hok2
                  rcases List.mem_cons.mp hmem with hhead | htail
                  · injection hhead with h1 h2
                    subst h1
                    subst h2
                    refine ⟨ent, f, a, List.mem_cons_self _ _, entryType_story hdocs,
                      hflk, ha, by rw [hval], ?_⟩
                    by_cases hb : b = true
                    · exact Or.inl hb
                    · right
                      have hb2 : b = false := by
                        cases b
                        · rfl
                        · exact absurd rfl hb
                      by_cases hdo : o.val.docsOnly = true
                      · exact absurd ⟨hb2, hdo⟩ hskip
                      · rw [← hval]
                        cases hdd : o.val.docsOnly
                        · rfl
                        · exact absurd hdd hdo
                  · obtain ⟨ent2, f2, a2, hm2, hty, hf2, ha2, hrec, hdo⟩ :=
                      extractEntries_mem b cached rest s1 recs2 hprep1 (by rw [hrest])
                        storyId rec htail
                    rw [hps, hpa] at hrec hdo
                    exact ⟨ent2, f2, a2, List.mem_cons_of_mem _ hm2, hty, hf2, ha2, hrec, hdo⟩

theorem cacheAll_ok_spec (s : Store) (h : (cacheAllCSFFiles s).1 = .ok ()) :
    ∃ m0, (loadAllCSFFiles s).1 = .ok m0 ∧
      (cacheAllCSFFiles s).2.cachedCSFFiles = some m0 ∧
      (cacheAllCSFFiles s).2.entries = s.entries ∧
      (cacheAllCSFFiles s).2.prepareCache = s.prepareCache ∧
      (cacheAllCSFFiles s).2.prepareStory = s.prepareStory ∧
      (cacheAllCSFFiles s).2.projectAnnotations = s.projectAnnotations := by
  have hfr : LoadFrame s (loadAllCSFFiles s).2 := loadCSFList_frame _ s
  cases hres : loadAllCSFFiles s with
  | mk r st =>
    rw [hres] at hfr
    cases r with
    | error e => simp [cacheAllCSFFiles, hres] at h
    | ok m0 =>
      have hc : cacheAllCSFFiles s = (.ok (), { st with cachedCSFFiles := some m0 }) := by
        simp [cacheAllCSFFiles, hres]
      refine ⟨m0, rfl, ?_, ?_, ?_, ?_, ?_⟩
      · rw [hc]
      · rw [hc]; exact hfr.1.1
      · rw [hc]; exact hfr.2.2.2.1
      · rw [hc]; exact hfr.1.2.2.2.2.1
      · rw [hc]; exact hfr.1.2.2.1

/-- Claim C1: calling `extract` before any successful `cacheAllCSFFiles` fails
with CalledExtractOnStoreError; after a successful `cacheAllCSFFiles` (on an
index whose story entries are all present in their processed file records) it
succeeds, and every index entry of kind docs is absent from the returned
mapping. -/
theorem claim_C1 (s : Store) (m : List (Path × CSFFile))
    (hnd : (s.entries.map Prod.fst).Nodup)
    (hprep : PrepareCacheOK s)
    (hmat : (cacheAllCSFFiles s).1 = .ok ())
    (hm : (cacheAllCSFFiles s).2.cachedCSFFiles = some m)
    (hcov : ∀ storyId ent f, (storyId, ent) ∈ s.entries → ent.type = EntryType.story →
      alookup m ent.importPath = some f → ∃ a, alookup f.stories storyId = some a) :
    (∀ s0 b, s0.cachedCSFFiles = none →
        extract s0 b = (.error .calledExtractOnStore, s0)) ∧
      ∃ recs, (extract (cacheAllCSFFiles s).2 false).1 = .ok recs ∧
        ∀ storyId ent, (storyId, ent) ∈ (cacheAllCSFFiles s).2.entries →
          ent.type = EntryType.docs → storyId ∉ recs.map Prod.fst := by
  obtain ⟨m0, hload, hm0, hent, hpc, hpstory, hproj⟩ := cacheAll_ok_spec s hmat
  have hmm : m0 = m := by
    rw [hm0] at hm
    exact Option.some.inj hm
  subst hmm
  constructor
  · intro s0 b h0
    simp [extract, h0]
  · have hprep1 : PrepareCacheOK (cacheAllCSFFiles s).2 :=
      prepareCacheOK_congr hpc hpstory hprep
    obtain ⟨hall, hkeys⟩ := loadCSFList_ok_inv (importPathsOf s.entries) s m0 hload
    have hcov2 : ∀ q ∈ (cacheAllCSFFiles s).2.entries, q.2.type = EntryType.story →
        ∃ f, alookup m0 q.2.importPath = some f ∧
          ∃ a, alookup f.stories q.1 = some a := by
      intro q hq hty
      rw [hent] at hq
      have hpmem : q.2.importPath ∈ m0.map Prod.fst := by
        rw [hkeys]
        exact (importPathsOf_keys_mem s.entries [] q.2.importPath).mpr
          (Or.inr ⟨q, hq, rfl⟩)
      have hsome : (alookup m0 q.2.importPath).isSome := alookup_isSome_iff.mpr hpmem
      cases hf : alookup m0 q.2.importPath with
      | none => rw [hf] at hsome; cases hsome
      | some f =>
        refine ⟨f, rfl, ?_⟩
        exact hcov q.1 q.2 f hq hty hf
    obtain ⟨recs, hrecs⟩ := extractEntries_isOk false m0 (cacheAllCSFFiles s).2.entries
      (cacheAllCSFFiles s).2 hprep1 hcov2
    refine ⟨recs, ?_, ?_⟩
    · simp only [extract, hm0]
      exact hrecs
    · intro storyId ent hmem hdocs hkey
      obtain ⟨⟨sid2, rec⟩, hrecmem, hfst⟩ := List.mem_map.mp hkey
      simp only at hfst
      subst hfst
      obtain ⟨ent2, f2, a2, hm2, hty, _, _, _, _⟩ :=
        extractEntries_mem false m0 (cacheAllCSFFiles s).2.entries (cacheAllCSFFiles s).2
          recs hprep1 hrecs sid2 rec hrecmem
      have hnd1 : ((cacheAllCSFFiles s).2.entries.map Prod.fst).Nodup := by
        rw [hent]; exact hnd
      have hee : ent2 = ent := alookup_unique hnd1 hm2 hmem
      rw [hee, hdocs] at hty
      simp at hty

/-- Claim C1 witness: the unmaterialized demo store rejects `extract`; after
materialization, extraction succeeds and the (vacuous) docs entries are absent. -/
theorem claim_C1_witness :
    (∀ s0 b, s0.cachedCSFFiles = none →
        extract s0 b = (.error .calledExtractOnStore, s0)) ∧
      ∃ recs, (extract (cacheAllCSFFiles demoStore).2 false).1 = .ok recs ∧
        ∀ storyId ent, (storyId, ent) ∈ (cacheAllCSFFiles demoStore).2.entries →
          ent.type = EntryType.docs → storyId ∉ recs.map Prod.fst :=
  claim_C1 demoStore [("Button.stories.ts", demoCSF)] (by decide)
    (fun _ _ h => absurd h (List.not_mem_nil _)) (by decide) (by decide)
    (by
      intro storyId ent f hmem hty hf
      rcases List.mem_singleton.mp hmem with h
      injection h with h1 h2
      subst h1
      subst h2
      have hdc : alookup [("Button.stories.ts", demoCSF)] demoEntry.importPath =
          some demoCSF := by decide
      rw [hdc] at hf
      rw [← Option.some.inj hf]
      exact ⟨20, by decide⟩)

/-- Claim C8: each record produced by `extract` comes from a resolved story of a
non-docs index entry, has no callable-valued field, carries the resolved
story's initial argument defaults under the key args, and has every
array-valued field equal to a sorted copy (a sorted permutation) of the
resolved story's field; a story marked documentation-only is omitted unless
includeDocsOnly is set. -/
theorem claim_C8 (s : Store) (m : List (Path × CSFFile)) (b : Bool)
    (recs : List (StoryId × List (String × Value)))
    (hprep : PrepareCacheOK s)
    (hnd : (s.entries.map Prod.fst).Nodup)
    (hm : s.cachedCSFFiles = some m)
    (hargs : ∀ a c p, ∀ kv ∈ (s.prepareStory a c p).fields, kv.1 ≠ "args")
    (hok : (extract s b).1 = .ok recs) :
    (∀ storyId rec, (storyId, rec) ∈ recs →
      ∃ ent f a, (storyId, ent) ∈ s.entries ∧ ent.type = EntryType.story ∧
        alookup m ent.importPath = some f ∧ alookup f.stories storyId = some a ∧
        rec = extractRecord (s.prepareStory a f.meta s.projectAnnotations) ∧
        (b = true ∨ (s.prepareStory a f.meta s.projectAnnotations).docsOnly = false) ∧
        (∀ kv ∈ rec, ∀ n, kv.2 ≠ Value.fn n) ∧
        alookup rec "args" =
          some (.argsObj (s.prepareStory a f.meta s.projectAnnotations).initialArgs) ∧
        (∀ k l2, (k, Value.arr l2) ∈ rec →
          ∃ l0, (k, Value.arr l0) ∈ (s.prepareStory a f.meta s.projectAnnotations).fields ∧
            l2 = sortStrings l0 ∧ l2.Perm l0 ∧ List.Sorted (fun x y => x ≤ y) l2)) ∧
      (∀ storyId ent f a, (storyId, ent) ∈ s.entries → ent.type = EntryType.story →
        alookup m ent.importPath = some f → alookup f.stories storyId = some a →
        (s.prepareStory a f.meta s.projectAnnotations).docsOnly = true → b = false →
        storyId ∉ recs.map Prod.fst) := by
  have hok2 : (extractEntries s b m s.entries).1 = .ok recs := by
    simpa [extract, hm] using hok
  constructor
  · intro storyId rec hmem
    obtain ⟨ent, f, a, hm2, hty, hf, ha, hrec, hdo⟩ :=
      extractEntries_mem b m s.entries s recs hprep hok2 storyId rec hmem
    refine ⟨ent, f, a, hm2, hty, hf, ha, hrec, hdo, ?_, ?_, ?_⟩
    · rw [hrec]; exact extractRecord_no_fn _
    · rw [hrec]; exact extractRecord_args _ (hargs a f.meta s.projectAnnotations)
    · intro k l2 hl
      rw [hrec] at hl
      obtain ⟨l0, hl0, hsort⟩ := extractRecord_arr _ k l2 hl
      refine ⟨l0, hl0, hsort, ?_, ?_⟩
      · rw [hsort]; exact sortStrings_perm l0
      · rw [hsort]; exact sortStrings_sorted l0
  · intro storyId ent f a hmem hty hf ha hdocsOnly hb hkey
    obtain ⟨⟨sid2, rec⟩, hrecmem, hfst⟩ := List.mem_map.mp hkey
    simp only at hfst
    subst hfst
    obtain ⟨ent2, f2, a2, hm2, hty2, hf2, ha2, hrec2, hdo2⟩ :=
      extractEntries_mem b m s.entries s recs hprep hok2 sid2 rec hrecmem
    have hee : ent2 = ent := alookup_unique hnd hm2 hmem
    rw [hee] at hf2
    have hff : f2 = f := by
      rw [hf2] at hf
      exact Option.some.inj hf
    rw [hff] at ha2
    have haa : a2 = a := by
      rw [ha2] at ha
      exact Option.some.inj ha
    rcases hdo2 with hb2 | hdf
    · rw [hb] at hb2
      simp at hb2
    · rw [haa, hff] at hdf
      rw [hdocsOnly] at hdf
      simp at hdf

/-- Claim C8 witness: on the materialized demo store, the single produced record
is the demo record: callables stripped, args seeded with the initial defaults,
arrays sorted. -/
theorem claim_C8_witness :
    (∀ storyId rec, (storyId, rec) ∈ [("s1", demoRecord)] →
      ∃ ent f a, (storyId, ent) ∈ matStore.entries ∧ ent.type = EntryType.story ∧
        alookup [("Button.stories.ts", demoCSF)] ent.importPath = some f ∧
        alookup f.stories storyId = some a ∧
        rec = extractRecord (matStore.prepareStory a f.meta matStore.projectAnnotations) ∧
        (false = true ∨
          (matStore.prepareStory a f.meta matStore.projectAnnotations).docsOnly = false) ∧
        (∀ kv ∈ rec, ∀ n, kv.2 ≠ Value.fn n) ∧
        alookup rec "args" = some (.argsObj
          (matStore.prepareStory a f.meta matStore.projectAnnotations).initialArgs) ∧
        (∀ k l2, (k, Value.arr l2) ∈ rec →
          ∃ l0, (k, Value.arr l0) ∈
              (matStore.prepareStory a f.meta matStore.projectAnnotations).fields ∧
            l2 = sortStrings l0 ∧ l2.Perm l0 ∧ List.Sorted (fun x y => x ≤ y) l2)) ∧
      (∀ storyId ent f a, (storyId, ent) ∈ matStore.entries →
        ent.type = EntryType.story →
        alookup [("Button.stories.ts", demoCSF)] ent.importPath = some f →
        alookup f.stories storyId = some a →
        (matStore.prepareStory a f.meta matStore.projectAnnotations).docsOnly = true →
        false = false → storyId ∉ [("s1", demoRecord)].map Prod.fst) :=
  claim_C8 matStore [("Button.stories.ts", demoCSF)] false [("s1", demoRecord)]
    (fun _ _ h => absurd h (List.not_mem_nil _)) (by decide) rfl
    (by
      intro a c p kv hkv
      have h2 : kv ∈ demoPrepared.fields := hkv
      simp only [demoPrepared, List.mem_cons, List.not_mem_nil, or_false] at h2
      rcases h2 with h | h | h | h | h <;> (subst h; decide))
    (by decide)

end StoryStore
